import Mathlib

/-!
Verification of the drone-sim planning core (`PathPlanner.ts` and
`DroneSimulatorV2.generateTrajectoryFromPath`).

The development is a shallow embedding of the improved planner module:
JavaScript numbers are modelled as real numbers (`ℝ`), `Math.sqrt` as
`Real.sqrt`, `Math.round` as `round : ℝ → ℤ` (both round half toward +∞),
`Math.ceil` on non-negative values as `Nat.ceil`, and `Math.floor` as
`Int.floor`.  JavaScript division is modelled by Lean's total real division;
the one place where the source divides by zero (`isPathClear` on a
zero-length segment) is tracked separately by an instrumented definition.
Mutable planner instance fields (`openSet`, `closedSet`, `nodeMap`,
`nodes`) are threaded as explicit state.  `Math.random()` is modelled as an
explicit stream of reals consumed one draw at a time.
-/

noncomputable section

open scoped Classical

namespace DroneSim

/-- The `Vector3` interface of `PathPlanner.ts`: a triple of coordinates. -/
structure Vector3 where
  x : ℝ
  y : ℝ
  z : ℝ
deriving DecidableEq

instance : Inhabited Vector3 := ⟨⟨0, 0, 0⟩⟩

/-- The `Obstacle` interface: a sphere given by center and radius. -/
structure Obstacle where
  position : Vector3
  radius : ℝ

/-- The `PathPlanningConfig` interface. -/
structure PathPlanningConfig where
  startPos : Vector3
  endPos : Vector3
  obstacles : List Obstacle
  gridSize : ℝ
  droneRadius : ℝ
  maxIterations : ℕ

/-- `distance(a, b)`: Euclidean distance, as written in the source
(`Math.sqrt(dx*dx + dy*dy + dz*dz)`). -/
def distance (a b : Vector3) : ℝ :=
  Real.sqrt ((a.x - b.x) * (a.x - b.x) + (a.y - b.y) * (a.y - b.y) +
    (a.z - b.z) * (a.z - b.z))

/-- `AStarPlanner.isPointClear` / `RRTPlanner.isPointClear` (both classes
contain the identical method): the point is at distance at least
`obstacle.radius + droneRadius + 2` from every obstacle center. -/
def isPointClear (cfg : PathPlanningConfig) (point : Vector3) : Prop :=
  ∀ obstacle ∈ cfg.obstacles,
    ¬ (distance point obstacle.position < obstacle.radius + cfg.droneRadius + 2)

/-- The interpolated sample point `from + (to - from) * t` used by
`isPathClear`. -/
def samplePoint (a b : Vector3) (t : ℝ) : Vector3 :=
  ⟨a.x + (b.x - a.x) * t, a.y + (b.y - a.y) * t, a.z + (b.z - a.z) * t⟩

/-- The sample count `steps = Math.ceil(distance(from, to) / 2)` of
`isPathClear`. -/
def pathClearSteps (a b : Vector3) : ℕ :=
  ⌈distance a b / 2⌉₊

/-- `isPathClear(from, to)` (identical in both planner classes): every one
of the `steps + 1` sampled points `from + (to - from) * (i / steps)` is
clear of all obstacles. -/
def isPathClear (cfg : PathPlanningConfig) (a b : Vector3) : Prop :=
  ∀ i ∈ List.range (pathClearSteps a b + 1),
    isPointClear cfg (samplePoint a b ((i : ℝ) / (pathClearSteps a b : ℝ)))

/-- The list of divisors evaluated by the loop of `isPathClear`: each of the
`steps + 1` iterations computes `t = i / steps`, so each evaluates a
division with divisor `steps`.  Instrumentation used to check the spec's
division-by-zero claim. -/
def pathClearDivisors (a b : Vector3) : List ℝ :=
  (List.range (pathClearSteps a b + 1)).map (fun _ => (pathClearSteps a b : ℝ))

/-- `AStarPlanner.getNodeKey`: each coordinate is divided by the constant
`precision = 1`, rounded (`Math.round`), and multiplied back; the resulting
integer triple is the dedup key (the source interpolates it into a string,
which identifies exactly the integer triple). -/
def getNodeKey (pos : Vector3) : ℤ × ℤ × ℤ :=
  (round (pos.x / 1), round (pos.y / 1), round (pos.z / 1))

/-- Modelled from the spec: §4.2 describes the dedup key as obtained by
"rounding each coordinate to the nearest `gridStep`", i.e. to the nearest
integer multiple of the grid spacing.  This definition follows the spec's
words and is compared against `getNodeKey` from the source. -/
def specGridKey (gridStep : ℝ) (pos : Vector3) : ℝ × ℝ × ℝ :=
  ((round (pos.x / gridStep) : ℝ) * gridStep,
   (round (pos.y / gridStep) : ℝ) * gridStep,
   (round (pos.z / gridStep) : ℝ) * gridStep)

/-- The `PathNode` interface: position, accumulated cost `g`, heuristic `h`
and an optional parent reference forming a tree rooted at the start node. -/
inductive PathNode where
  | mk (position : Vector3) (g : ℝ) (h : ℝ) (parent : Option PathNode)

/-- Position field of a `PathNode`. -/
def PathNode.position : PathNode → Vector3
  | .mk p _ _ _ => p

/-- Accumulated cost field of a `PathNode`. -/
def PathNode.g : PathNode → ℝ
  | .mk _ g _ _ => g

/-- Heuristic field of a `PathNode`. -/
def PathNode.h : PathNode → ℝ
  | .mk _ _ h _ => h

/-- Parent field of a `PathNode`. -/
def PathNode.parent : PathNode → Option PathNode
  | .mk _ _ _ p => p

/-- The mutable instance state of an `AStarPlanner`: the fields `openSet`,
`closedSet` and `nodeMap` (a JavaScript `Map`, modelled as an insertion
ordered association list).  These fields persist across `plan()` calls. -/
structure AState where
  openSet : List PathNode
  closedSet : List PathNode
  nodeMap : List ((ℤ × ℤ × ℤ) × PathNode)

/-- The state of a freshly constructed `AStarPlanner`. -/
def freshState : AState := ⟨[], [], []⟩

/-- `Map.get`: the value stored at a key, if any (first matching entry). -/
def mapGet (m : List ((ℤ × ℤ × ℤ) × PathNode)) (k : ℤ × ℤ × ℤ) :
    Option PathNode :=
  match m with
  | [] => none
  | (k', v) :: rest => if k' = k then some v else mapGet rest k

/-- `Map.set`: replace the entry at the key in place, or append a new
entry. -/
def mapSet (m : List ((ℤ × ℤ × ℤ) × PathNode)) (k : ℤ × ℤ × ℤ)
    (v : PathNode) : List ((ℤ × ℤ × ℤ) × PathNode) :=
  match m with
  | [] => [(k, v)]
  | (k', v') :: rest =>
      if k' = k then (k, v) :: rest else (k', v') :: mapSet rest k v

/-- The minimum-`f` scan of `AStarPlanner.plan`: walk the open set keeping
the first node whose `f = g + h` is strictly below the running minimum
(`minF` starts at `Infinity`, so the first node always becomes the running
minimum).  Returns the chosen index and node. -/
def minFAux : List PathNode → ℕ → Option (ℕ × PathNode) → Option (ℕ × PathNode)
  | [], _, best => best
  | n :: rest, i, best =>
      match best with
      | none => minFAux rest (i + 1) (some (i, n))
      | some (bi, bn) =>
          if n.g + n.h < bn.g + bn.h then minFAux rest (i + 1) (some (i, n))
          else minFAux rest (i + 1) (some (bi, bn))

/-- Scan of the whole open set starting from `minF = Infinity`. -/
def findMinF (openSet : List PathNode) : Option (ℕ × PathNode) :=
  minFAux openSet 0 none

/-- The 26 neighbor offsets generated by the triple loop
`dx, dy, dz ∈ {-1, 0, 1}`, skipping `(0, 0, 0)`, in source order. -/
def neighborOffsets : List (ℤ × ℤ × ℤ) :=
  ((List.range 3).flatMap fun (a : ℕ) =>
    (List.range 3).flatMap fun (b : ℕ) =>
      (List.range 3).map fun (c : ℕ) => ((a : ℤ) - 1, (b : ℤ) - 1, (c : ℤ) - 1)).filter
    (fun d => !(d = ((0 : ℤ), (0 : ℤ), (0 : ℤ))))

/-- `AStarPlanner.getNeighbors`: the offset positions that lie in the
vertical band `0 ≤ y ≤ 100`, are point-clear, and are segment-clear from
the current node. -/
def getNeighbors (cfg : PathPlanningConfig) (node : PathNode) : List Vector3 :=
  (neighborOffsets.map fun d =>
      (⟨node.position.x + (d.1 : ℝ) * cfg.gridSize,
        node.position.y + (d.2.1 : ℝ) * cfg.gridSize,
        node.position.z + (d.2.2 : ℝ) * cfg.gridSize⟩ : Vector3)).filter
    fun nb => decide (0 ≤ nb.y) && decide (nb.y ≤ 100) &&
      decide (isPointClear cfg nb) && decide (isPathClear cfg node.position nb)

/-- The per-neighbor body of the expansion loop in `AStarPlanner.plan`
(lines handling the closed-set skip, the strictly-lower-`g` dedup check,
and the push into `openSet` / `nodeMap`). -/
def processNeighbor (cfg : PathPlanningConfig) (current : PathNode)
    (st : AState) (neighborPos : Vector3) : AState :=
  let key := getNodeKey neighborPos
  if st.closedSet.any (fun n => getNodeKey n.position = key) then st
  else
    let tentativeG := current.g + distance current.position neighborPos
    let push : AState :=
      let neighbor : PathNode := .mk neighborPos tentativeG
        (distance neighborPos cfg.endPos) (some current)
      { st with openSet := st.openSet ++ [neighbor],
                nodeMap := mapSet st.nodeMap key neighbor }
    match mapGet st.nodeMap key with
    | some existingNode => if tentativeG ≥ existingNode.g then st else push
    | none => push

/-- `AStarPlanner.reconstructPath`: walk parent references back to the
root, collecting positions root-first. -/
def reconstructPath : PathNode → List Vector3
  | .mk p _ _ none => [p]
  | .mk p _ _ (some parent) => reconstructPath parent ++ [p]

/-- The raised midpoint of `AStarPlanner.getAlternativePath`. -/
def midPoint (cfg : PathPlanningConfig) : Vector3 :=
  ⟨(cfg.startPos.x + cfg.endPos.x) / 2,
   max cfg.startPos.y cfg.endPos.y + 20,
   (cfg.startPos.z + cfg.endPos.z) / 2⟩

/-- `AStarPlanner.getAlternativePath`: start, then the raised midpoint if
the segment from the start to it is clear, then the goal. -/
def getAlternativePath (cfg : PathPlanningConfig) : List Vector3 :=
  [cfg.startPos] ++
    (if isPathClear cfg cfg.startPos (midPoint cfg) then [midPoint cfg] else []) ++
    [cfg.endPos]

/-- Which exit of `AStarPlanner.plan` produced the result. -/
inductive PlanOutcome where
  /-- Start or goal not point-clear: returned `[start, end]` before the loop. -/
  | earlyReject
  /-- A node near the goal with a clear segment to it: path returned. -/
  | success
  /-- Open set empty, direct segment clear: returned `[start, end]`. -/
  | emptyDirect
  /-- Open set empty, direct segment blocked: returned the alternative path. -/
  | emptyAlt
  /-- `maxIterations` exhausted (or the scan broke): returned the alternative path. -/
  | exhausted
deriving DecidableEq

/-- The iteration loop of `AStarPlanner.plan`, by fuel (the remaining
iteration budget). -/
def planLoop (cfg : PathPlanningConfig) :
    ℕ → AState → List Vector3 × AState × PlanOutcome
  | 0, st => (getAlternativePath cfg, st, .exhausted)
  | fuel + 1, st =>
      if st.openSet = [] then
        if isPathClear cfg cfg.startPos cfg.endPos then
          ([cfg.startPos, cfg.endPos], st, .emptyDirect)
        else (getAlternativePath cfg, st, .emptyAlt)
      else
        match findMinF st.openSet with
        | none => (getAlternativePath cfg, st, .exhausted)
        | some (minIndex, current) =>
            if distance current.position cfg.endPos < cfg.gridSize * 2 ∧
                isPathClear cfg current.position cfg.endPos then
              (reconstructPath current ++ [cfg.endPos], st, .success)
            else
              let st' : AState :=
                { st with openSet := st.openSet.eraseIdx minIndex,
                          closedSet := st.closedSet ++ [current] }
              planLoop cfg fuel
                ((getNeighbors cfg current).foldl (processNeighbor cfg current) st')

/-- `AStarPlanner.plan()` on an instance whose mutable fields hold `st`:
returns the path together with the instance state left behind and the
outcome label. -/
def planA (cfg : PathPlanningConfig) (st : AState) :
    List Vector3 × AState × PlanOutcome :=
  if ¬ isPointClear cfg cfg.startPos ∨ ¬ isPointClear cfg cfg.endPos then
    ([cfg.startPos, cfg.endPos], st, .earlyReject)
  else
    let startNode : PathNode :=
      .mk cfg.startPos 0 (distance cfg.startPos cfg.endPos) none
    planLoop cfg cfg.maxIterations
      { st with openSet := st.openSet ++ [startNode],
                nodeMap := mapSet st.nodeMap (getNodeKey cfg.startPos) startNode }

/-- `RRTPlanner.randomPoint`, given the three `Math.random()` draws it
consumes. -/
def randomPoint (r1 r2 r3 : ℝ) : Vector3 :=
  ⟨r1 * 200 - 100, r2 * 50 + 5, r3 * 200 - 100⟩

/-- `RRTPlanner.nearestNode`: linear scan for the closest tree point, the
running best starting at `nodes[0]` and replaced on strictly smaller
distance. -/
def nearestNode (nodes : List Vector3) (point : Vector3) : Vector3 :=
  nodes.foldl
    (fun nearest node =>
      if distance point node < distance point nearest then node else nearest)
    nodes.headI

/-- `RRTPlanner.step`: move from `from` toward `to` by `stepSize`, or jump
to `to` when it is closer than the step. -/
def stepToward (a b : Vector3) (stepSize : ℝ) : Vector3 :=
  if distance a b < stepSize then b
  else
    let ratio := stepSize / distance a b
    ⟨a.x + (b.x - a.x) * ratio, a.y + (b.y - a.y) * ratio,
     a.z + (b.z - a.z) * ratio⟩

/-- The predecessor scan inside `RRTPlanner.reconstructPath`: over all node
indices other than `cur` (object identity in the source, index identity
here), keep the one at strictly smallest distance from the current point
whose connecting segment is clear; `minDist` starts at `Infinity`, so the
result is `none` exactly when no candidate qualifies (the loop's `break`). -/
def findPrevAux (cfg : PathPlanningConfig) (nodes : List Vector3)
    (cur : ℕ) : List ℕ → Option (ℕ × ℝ) → Option (ℕ × ℝ)
  | [], best => best
  | j :: rest, best =>
      if j = cur then findPrevAux cfg nodes cur rest best
      else
        let d := distance (nodes.getD j default) (nodes.getD cur default)
        match best with
        | none =>
            if isPathClear cfg (nodes.getD j default) (nodes.getD cur default) then
              findPrevAux cfg nodes cur rest (some (j, d))
            else findPrevAux cfg nodes cur rest none
        | some (bj, bd) =>
            if d < bd ∧
                isPathClear cfg (nodes.getD j default) (nodes.getD cur default) then
              findPrevAux cfg nodes cur rest (some (j, d))
            else findPrevAux cfg nodes cur rest (some (bj, bd))

/-- One full predecessor scan of `RRTPlanner.reconstructPath`. -/
def findPrev (cfg : PathPlanningConfig) (nodes : List Vector3) (cur : ℕ) :
    Option (ℕ × ℝ) :=
  findPrevAux cfg nodes cur (List.range nodes.length) none

/-- The `while (current)` loop of `RRTPlanner.reconstructPath`, by fuel:
prepend the current point, then either stop (no reachable predecessor:
`minDist` stayed `Infinity`) and append the literal goal, or continue from
the chosen predecessor.  `none` means the fuel ran out, i.e. the loop has
not terminated within `fuel` steps. -/
def reconstructGo (cfg : PathPlanningConfig) (nodes : List Vector3) :
    ℕ → ℕ → List Vector3 → Option (List Vector3)
  | 0, _, _ => none
  | fuel + 1, cur, acc =>
      let acc' := nodes.getD cur default :: acc
      match findPrev cfg nodes cur with
      | none => some (acc' ++ [cfg.endPos])
      | some (j, _) => reconstructGo cfg nodes fuel j acc'

/-- `RRTPlanner.reconstructPath(endPoint)` where `endPoint` is the node at
index `cur`, allowed `fuel` loop steps. -/
def rrtReconstructPath (cfg : PathPlanningConfig) (nodes : List Vector3)
    (cur : ℕ) (fuel : ℕ) : Option (List Vector3) :=
  reconstructGo cfg nodes fuel cur []

/-- The fallback scan at the end of `RRTPlanner.plan`: the index of the
visited node closest to the goal (running best starts at `nodes[0]`,
replaced on strictly smaller distance). -/
def closestToGoalIdx (cfg : PathPlanningConfig) (nodes : List Vector3) : ℕ :=
  (nodes.enum.foldl
    (fun best entry =>
      if distance entry.2 cfg.endPos < best.2 then
        (entry.1, distance entry.2 cfg.endPos)
      else best)
    (0, distance nodes.headI cfg.endPos)).1

/-- The iteration loop of `RRTPlanner.plan`, by fuel.  `stream` supplies
the `Math.random()` draws and `k` is the index of the next unconsumed
draw; `rfuel` bounds the reconstruction loop. -/
def rrtPlanLoop (cfg : PathPlanningConfig) (stream : ℕ → ℝ) (rfuel : ℕ) :
    ℕ → ℕ → List Vector3 → Option (List Vector3)
  | 0, _, nodes =>
      rrtReconstructPath cfg nodes (closestToGoalIdx cfg nodes) rfuel
  | fuel + 1, k, nodes =>
      let biased := stream k < 0.1
      let sample := if biased then cfg.endPos
        else randomPoint (stream (k + 1)) (stream (k + 2)) (stream (k + 3))
      let k' := if biased then k + 1 else k + 4
      let nearest := nearestNode nodes sample
      let newPoint := stepToward nearest sample (cfg.gridSize * 2)
      if isPointClear cfg newPoint ∧ isPathClear cfg nearest newPoint then
        let nodes' := nodes ++ [newPoint]
        if distance newPoint cfg.endPos < cfg.gridSize * 3 ∧
            isPathClear cfg newPoint cfg.endPos then
          rrtReconstructPath cfg nodes' (nodes'.length - 1) rfuel
        else rrtPlanLoop cfg stream rfuel fuel k' nodes'
      else rrtPlanLoop cfg stream rfuel fuel k' nodes

/-- `RRTPlanner.plan()`: the node sequence is reinitialized to `[startPos]`
at entry (so `priorNodes`, the instance field left by any previous call, is
discarded), then the sampling loop runs for `maxIterations` iterations.
`none` means the call has not returned within `rfuel` reconstruction
steps. -/
def rrtPlan (cfg : PathPlanningConfig) (stream : ℕ → ℝ) (rfuel : ℕ)
    (priorNodes : List Vector3) : Option (List Vector3) :=
  rrtPlanLoop cfg stream rfuel cfg.maxIterations 0 [cfg.startPos]

/-- The Catmull-Rom basis evaluation of `TrajectorySmoothing.smoothPath`
at parameter `s`, for control points `p0 p1 p2 p3`. -/
def catmullRom (p0 p1 p2 p3 : Vector3) (s : ℝ) : Vector3 :=
  ⟨0.5 * (2 * p1.x + (-p0.x + p2.x) * s +
      (2 * p0.x - 5 * p1.x + 4 * p2.x - p3.x) * (s * s) +
      (-p0.x + 3 * p1.x - 3 * p2.x + p3.x) * (s * s * s)),
   0.5 * (2 * p1.y + (-p0.y + p2.y) * s +
      (2 * p0.y - 5 * p1.y + 4 * p2.y - p3.y) * (s * s) +
      (-p0.y + 3 * p1.y - 3 * p2.y + p3.y) * (s * s * s)),
   0.5 * (2 * p1.z + (-p0.z + p2.z) * s +
      (2 * p0.z - 5 * p1.z + 4 * p2.z - p3.z) * (s * s) +
      (-p0.z + 3 * p1.z - 3 * p2.z + p3.z) * (s * s * s))⟩

/-- `TrajectorySmoothing.smoothPath(path, pointsPerSegment)`: unchanged for
fewer than two points; otherwise `pointsPerSegment` Catmull-Rom samples per
consecutive pair (control points clamped at the ends), followed by the
literal final input point. -/
def smoothPath (path : List Vector3) (pointsPerSegment : ℕ) : List Vector3 :=
  if path.length < 2 then path
  else
    ((List.range (path.length - 1)).flatMap fun i =>
      let p0 := path.getD (i - 1) default
      let p1 := path.getD i default
      let p2 := path.getD (i + 1) default
      let p3 := path.getD (min (path.length - 1) (i + 2)) default
      (List.range pointsPerSegment).map fun (t : ℕ) =>
        catmullRom p0 p1 p2 p3 ((t : ℝ) / (pointsPerSegment : ℝ))) ++
      [path.getLastD default]

/-- The `TrajectoryPoint` interface of `DroneSimulatorV2`. -/
structure TrajectoryPoint where
  position : Vector3
  timestamp : ℝ
  velocity : ℝ

/-- The total path length of `generateTrajectoryFromPath`: the sum of the
lengths of consecutive segments. -/
def totalDistance (path : List Vector3) : ℝ :=
  (path.zip path.tail).foldl (fun acc p => acc + distance p.1 p.2) 0

/-- The sample count `pointsCount = Math.max(100, Math.floor(totalTime * 10))`
of `generateTrajectoryFromPath`, with `totalTime = totalDistance / speed`. -/
def pointsCount (path : List Vector3) (speed : ℝ) : ℕ :=
  (max (100 : ℤ) ⌊totalDistance path / speed * 10⌋).toNat

/-- The inner segment scan of `generateTrajectoryFromPath`: walk the
consecutive segments accumulating length; at the first segment whose
cumulative span reaches `target`, interpolate within it and stop.  `fallback`
is `path[0]`, which `position` retains when the loop finishes without the
break.  Caveat: this definition uses Lean's total division, which maps the
source's `(target - currentDistance) / 0` on a zero-length segment to `0`
where JavaScript produces `NaN`; the companion `posScanChecked` below makes
that divergence explicit. -/
def posScan (fallback : Vector3) : Vector3 → List Vector3 → ℝ → ℝ → Vector3
  | _, [], _, _ => fallback
  | prev, q :: rest, currentDistance, target =>
      let segmentDistance := distance prev q
      if currentDistance + segmentDistance ≥ target then
        let segmentProgress := (target - currentDistance) / segmentDistance
        ⟨prev.x + (q.x - prev.x) * segmentProgress,
         prev.y + (q.y - prev.y) * segmentProgress,
         prev.z + (q.z - prev.z) * segmentProgress⟩
      else posScan fallback q rest (currentDistance + segmentDistance) target

/-- The position emitted for sample `i` of `generateTrajectoryFromPath`. -/
def samplePosition (path : List Vector3) (speed : ℝ) (i : ℕ) : Vector3 :=
  posScan path.headI path.headI path.tail 0
    (totalDistance path * ((i : ℝ) / (pointsCount path speed : ℝ)))

/-- `DroneSimulatorV2.generateTrajectoryFromPath(path, speed)`. -/
def generateTrajectoryFromPath (path : List Vector3) (speed : ℝ) :
    List TrajectoryPoint :=
  (List.range (pointsCount path speed)).map fun i =>
    { position := samplePosition path speed i,
      timestamp := (i : ℝ) / (pointsCount path speed : ℝ) * (totalDistance path / speed),
      velocity := speed }

/-- The target arc-length distance `distanceAlongPath = totalDistance * (i / pointsCount)`
computed for sample `i` of `generateTrajectoryFromPath`. -/
def targetArcLength (path : List Vector3) (speed : ℝ) (i : ℕ) : ℝ :=
  totalDistance path * ((i : ℝ) / (pointsCount path speed : ℝ))

/-- The inner segment scan of `generateTrajectoryFromPath` with the
source's JavaScript division semantics made explicit.  When the segment
that satisfies `currentDistance + segmentDistance >= distanceAlongPath` has
zero length, the source computes
`segmentProgress = (distanceAlongPath - currentDistance) / 0` (`NaN` or
`±Infinity`) and the emitted coordinates are all
`prev + 0 * segmentProgress = NaN`; that case is returned here as `none`.
Whenever the result is `some v`, no zero-divisor division occurs in the
scan and `v` is exactly the position the source computes. -/
def posScanChecked (fallback : Vector3) :
    Vector3 → List Vector3 → ℝ → ℝ → Option Vector3
  | _, [], _, _ => some fallback
  | prev, q :: rest, currentDistance, target =>
      let segmentDistance := distance prev q
      if currentDistance + segmentDistance ≥ target then
        if segmentDistance = 0 then none
        else
          let segmentProgress := (target - currentDistance) / segmentDistance
          some ⟨prev.x + (q.x - prev.x) * segmentProgress,
                prev.y + (q.y - prev.y) * segmentProgress,
                prev.z + (q.z - prev.z) * segmentProgress⟩
      else posScanChecked fallback q rest (currentDistance + segmentDistance) target

/-- The position emitted for sample `i` of `generateTrajectoryFromPath`
under the explicit division semantics: `none` marks a `NaN` position. -/
def samplePositionChecked (path : List Vector3) (speed : ℝ) (i : ℕ) :
    Option Vector3 :=
  posScanChecked path.headI path.headI path.tail 0
    (totalDistance path * ((i : ℝ) / (pointsCount path speed : ℝ)))

/-- All positions along a node's parent chain are point-clear.  This is the
invariant that the expansion filter of `getNeighbors` maintains for every
node the grid search ever creates. -/
def chainClear (cfg : PathPlanningConfig) : PathNode → Prop
  | .mk p _ _ none => isPointClear cfg p
  | .mk p _ _ (some parent) => isPointClear cfg p ∧ chainClear cfg parent

/-- A concrete obstacle-free scenario for the tree planner: start at the
origin, goal 4 units above it, `gridSize = 5`, `droneRadius = 2`, a single
iteration allowed. -/
def rrtCfg : PathPlanningConfig :=
  { startPos := ⟨0, 0, 0⟩, endPos := ⟨0, 0, 4⟩, obstacles := [],
    gridSize := 5, droneRadius := 2, maxIterations := 1 }

/-- A random stream whose every draw is `0.05`: the first draw is below the
goal bias `0.1`, so the first sample is the literal goal. -/
def constStream : ℕ → ℝ := fun _ => 0.05

/-- A concrete obstacle-free scenario for the grid planner: start at
`(0,-5,0)`, goal at `(0,6,0)` (distance 11, beyond the `2 * gridSize`
goal radius), one iteration allowed, so the first call exhausts its budget
after expanding the start node. -/
def aCfg : PathPlanningConfig :=
  { startPos := ⟨0, -5, 0⟩, endPos := ⟨0, 6, 0⟩, obstacles := [],
    gridSize := 5, droneRadius := 2, maxIterations := 1 }

/-- A scenario whose start point sits exactly at an obstacle center. -/
def blockedCfg : PathPlanningConfig :=
  { startPos := ⟨0, 0, 0⟩, endPos := ⟨50, 0, 0⟩,
    obstacles := [⟨⟨0, 0, 0⟩, 3⟩], gridSize := 5, droneRadius := 2,
    maxIterations := 7 }

/-- A scenario with one far-away obstacle in which the grid planner
succeeds immediately: the goal is 8 units from the start, within the
`2 * gridSize = 10` goal radius, with a clear segment. -/
def clearCfg : PathPlanningConfig :=
  { startPos := ⟨0, 0, 0⟩, endPos := ⟨8, 0, 0⟩,
    obstacles := [⟨⟨1000, 0, 0⟩, 3⟩], gridSize := 5, droneRadius := 2,
    maxIterations := 1 }

/-- The start node of a `plan()` call on `aCfg` (heuristic
`distance((0,-5,0), (0,6,0)) = √121`). -/
def sNode : PathNode := .mk ⟨0, -5, 0⟩ 0 (Real.sqrt 121) none

/-- Shorthand for the neighbor nodes created by the first expansion on
`aCfg`: all have `sNode` as parent. -/
def nNode (p : Vector3) (g h : ℝ) : PathNode := .mk p g h (some sNode)

/-- The nine neighbors of the start of `aCfg` that survive the vertical
band filter (`y = 0`), in generation order, with their accumulated and
heuristic costs. -/
def aOpenSet1 : List PathNode :=
  [nNode ⟨-5, 0, -5⟩ (Real.sqrt 75) (Real.sqrt 86),
   nNode ⟨-5, 0, 0⟩ (Real.sqrt 50) (Real.sqrt 61),
   nNode ⟨-5, 0, 5⟩ (Real.sqrt 75) (Real.sqrt 86),
   nNode ⟨0, 0, -5⟩ (Real.sqrt 50) (Real.sqrt 61),
   nNode ⟨0, 0, 0⟩ (Real.sqrt 25) (Real.sqrt 36),
   nNode ⟨0, 0, 5⟩ (Real.sqrt 50) (Real.sqrt 61),
   nNode ⟨5, 0, -5⟩ (Real.sqrt 75) (Real.sqrt 86),
   nNode ⟨5, 0, 0⟩ (Real.sqrt 50) (Real.sqrt 61),
   nNode ⟨5, 0, 5⟩ (Real.sqrt 75) (Real.sqrt 86)]

/-- The instance state an `AStarPlanner` on `aCfg` is left with after its
first `plan()` call: the nine expanded neighbors still sit in `openSet`,
the start node sits in `closedSet`, and `nodeMap` holds all ten nodes. -/
def sigma1 : AState :=
  { openSet := aOpenSet1,
    closedSet := [sNode],
    nodeMap :=
      [((0, -5, 0), sNode),
       ((-5, 0, -5), nNode ⟨-5, 0, -5⟩ (Real.sqrt 75) (Real.sqrt 86)),
       ((-5, 0, 0), nNode ⟨-5, 0, 0⟩ (Real.sqrt 50) (Real.sqrt 61)),
       ((-5, 0, 5), nNode ⟨-5, 0, 5⟩ (Real.sqrt 75) (Real.sqrt 86)),
       ((0, 0, -5), nNode ⟨0, 0, -5⟩ (Real.sqrt 50) (Real.sqrt 61)),
       ((0, 0, 0), nNode ⟨0, 0, 0⟩ (Real.sqrt 25) (Real.sqrt 36)),
       ((0, 0, 5), nNode ⟨0, 0, 5⟩ (Real.sqrt 50) (Real.sqrt 61)),
       ((5, 0, -5), nNode ⟨5, 0, -5⟩ (Real.sqrt 75) (Real.sqrt 86)),
       ((5, 0, 0), nNode ⟨5, 0, 0⟩ (Real.sqrt 50) (Real.sqrt 61)),
       ((5, 0, 5), nNode ⟨5, 0, 5⟩ (Real.sqrt 75) (Real.sqrt 86))] }

section Helpers

/-- Square-root evaluation helper: `√a = b` from `b ^ 2 = a`. -/
theorem sqrt_eq_of_sq {a b : ℝ} (hb : 0 ≤ b) (h : b ^ 2 = a) :
    Real.sqrt a = b := by
  rw [← h, Real.sqrt_sq hb]

/-- Square-root upper bound from a square. -/
theorem sqrt_le_of_sq {a b : ℝ} (hb : 0 ≤ b) (h : a ≤ b ^ 2) :
    Real.sqrt a ≤ b := by
  have h' := Real.sqrt_le_sqrt h
  rwa [Real.sqrt_sq hb] at h'

/-- Square-root lower bound from a square. -/
theorem le_sqrt_of_sq {a b : ℝ} (hb : 0 ≤ b) (h : b ^ 2 ≤ a) :
    b ≤ Real.sqrt a := by
  have h' := Real.sqrt_le_sqrt h
  rwa [Real.sqrt_sq hb] at h'

/-- With no obstacles every point is clear. -/
theorem isPointClear_of_no_obstacles {cfg : PathPlanningConfig}
    (h : cfg.obstacles = []) (p : Vector3) : isPointClear cfg p := by
  intro obstacle hob
  rw [h] at hob
  cases hob

/-- With no obstacles every segment is clear. -/
theorem isPathClear_of_no_obstacles {cfg : PathPlanningConfig}
    (h : cfg.obstacles = []) (a b : Vector3) : isPathClear cfg a b := by
  intro i _
  exact isPointClear_of_no_obstacles h _

/-- The distance from a point to itself is zero. -/
theorem distance_self (a : Vector3) : distance a a = 0 := by
  simp [distance]

/-- Distances are non-negative. -/
theorem distance_nonneg (a b : Vector3) : 0 ≤ distance a b :=
  Real.sqrt_nonneg _

/-- Length of a `flatMap` whose pieces all have the same length. -/
theorem length_flatMap_of_const {α β : Type} (L : List α) (g : α → List β)
    (s : ℕ) (h : ∀ a ∈ L, (g a).length = s) :
    (L.flatMap g).length = L.length * s := by
  induction L with
  | nil => simp
  | cons a t ih =>
      rw [List.flatMap_cons, List.length_append, h a (by simp),
        ih (fun x hx => h x (by simp [hx]))]
      simp [Nat.succ_mul]
      ring

end Helpers

/-- C8: the segment-clearance check has no explicit branch for zero-length
segments: on `from = to = (0, 0, 0)` it computes `steps = ceil(0 / 2) = 0`
and its loop still runs once, evaluating the division `t = i / steps` with
divisor `0` (in the source, `0 / 0 = NaN`, which then propagates into the
sampled point and makes every obstacle test false).  The divisor list of
that call is exactly `[0]`. -/
theorem c8_isPathClear_divides_by_zero :
    pathClearDivisors ⟨0, 0, 0⟩ ⟨0, 0, 0⟩ = [0] := by
  have hd : distance ⟨0, 0, 0⟩ ⟨0, 0, 0⟩ = 0 := by
    simp [distance]
  have hsteps : pathClearSteps ⟨0, 0, 0⟩ ⟨0, 0, 0⟩ = 0 := by
    rw [pathClearSteps, hd]
    norm_num
  rw [pathClearDivisors, hsteps]
  norm_num

/-- C5 counterexample: the dedup key of the source is *not* obtained by
rounding to the nearest multiple of `gridStep`.  With `gridStep = 5`, the
positions `(1.4, 0, 0)` and `(1.6, 0, 0)` round to the same nearest
multiple of the grid spacing (both to `0`), yet `getNodeKey` assigns them
the distinct keys `(1, 0, 0)` and `(2, 0, 0)`, so the planner treats them
as different nodes. -/
theorem c5_key_not_gridStep_multiple :
    getNodeKey ⟨1.4, 0, 0⟩ ≠ getNodeKey ⟨1.6, 0, 0⟩ ∧
      specGridKey 5 ⟨1.4, 0, 0⟩ = specGridKey 5 ⟨1.6, 0, 0⟩ := by
  have h14 : round ((1.4 : ℝ) / 1) = 1 := by norm_num [round_eq]
  have h16 : round ((1.6 : ℝ) / 1) = 2 := by norm_num [round_eq]
  have h145 : round ((1.4 : ℝ) / 5) = 0 := by norm_num [round_eq]
  have h165 : round ((1.6 : ℝ) / 5) = 0 := by norm_num [round_eq]
  constructor
  · simp only [getNodeKey, h14, h16]
    simp
  · simp only [specGridKey, h145, h165]

/-- C5 (amended): expanded nodes are deduplicated by `getNodeKey`, which
rounds each coordinate to the nearest integer (the constant `precision = 1`,
independent of `gridStep`); when a node already exists at the candidate's
key (and the key is not in the closed set), the candidate replaces it in
the node map, and is pushed onto the open set, exactly when its accumulated
cost `g` is strictly lower than the existing node's `g`; otherwise the
candidate is discarded and the state is unchanged. -/
theorem c5_dedup_strictly_lower_g (cfg : PathPlanningConfig)
    (current : PathNode) (st : AState) (nb : Vector3) (ex : PathNode)
    (hclosed : ∀ n ∈ st.closedSet, getNodeKey n.position ≠ getNodeKey nb)
    (hex : mapGet st.nodeMap (getNodeKey nb) = some ex) :
    (ex.g ≤ current.g + distance current.position nb →
      processNeighbor cfg current st nb = st) ∧
    (current.g + distance current.position nb < ex.g →
      processNeighbor cfg current st nb =
        { st with
          openSet := st.openSet ++
            [PathNode.mk nb (current.g + distance current.position nb)
              (distance nb cfg.endPos) (some current)],
          nodeMap := mapSet st.nodeMap (getNodeKey nb)
            (PathNode.mk nb (current.g + distance current.position nb)
              (distance nb cfg.endPos) (some current)) }) := by
  have hany : (st.closedSet.any fun n =>
      decide (getNodeKey n.position = getNodeKey nb)) = false := by
    rw [List.any_eq_false]
    intro n hn
    simpa using hclosed n hn
  constructor
  · intro hle
    simp only [processNeighbor, hany, Bool.false_eq_true, if_false, hex]
    rw [if_pos (by exact hle)]
  · intro hlt
    simp only [processNeighbor, hany, Bool.false_eq_true, if_false, hex]
    rw [if_neg (by exact not_le.mpr hlt)]

/-- Witness for the amended C5 theorem: a concrete candidate at position
`(0.4, 0, 0)` shares the integer key `(0, 0, 0)` with a stored node of cost
`5`; its own cost `2.6` is strictly lower, so it replaces that node. -/
theorem c5_dedup_strictly_lower_g_witness :
    (∀ n ∈ (AState.mk [] []
        [((0, 0, 0), PathNode.mk ⟨0.2, 0, 0⟩ 5 0 none)]).closedSet,
      getNodeKey n.position ≠ getNodeKey ⟨0.4, 0, 0⟩) ∧
    mapGet (AState.mk [] []
        [((0, 0, 0), PathNode.mk ⟨0.2, 0, 0⟩ 5 0 none)]).nodeMap
      (getNodeKey ⟨0.4, 0, 0⟩) = some (PathNode.mk ⟨0.2, 0, 0⟩ 5 0 none) ∧
    ((PathNode.mk ⟨3, 0, 0⟩ 0 0 none).g +
        distance (PathNode.mk ⟨3, 0, 0⟩ 0 0 none).position ⟨0.4, 0, 0⟩ <
      (PathNode.mk ⟨0.2, 0, 0⟩ 5 0 none).g) ∧
    processNeighbor
        { startPos := ⟨0, 0, 0⟩, endPos := ⟨0.4, 0, 0⟩, obstacles := [],
          gridSize := 5, droneRadius := 2, maxIterations := 1 }
        (PathNode.mk ⟨3, 0, 0⟩ 0 0 none)
        (AState.mk [] [] [((0, 0, 0), PathNode.mk ⟨0.2, 0, 0⟩ 5 0 none)])
        ⟨0.4, 0, 0⟩ =
      { openSet := [PathNode.mk ⟨0.4, 0, 0⟩
            ((PathNode.mk ⟨3, 0, 0⟩ 0 0 none).g +
              distance (PathNode.mk ⟨3, 0, 0⟩ 0 0 none).position ⟨0.4, 0, 0⟩)
            (distance ⟨0.4, 0, 0⟩ ⟨0.4, 0, 0⟩)
            (some (PathNode.mk ⟨3, 0, 0⟩ 0 0 none))],
        closedSet := [],
        nodeMap := mapSet
          [((0, 0, 0), PathNode.mk ⟨0.2, 0, 0⟩ 5 0 none)]
          (getNodeKey ⟨0.4, 0, 0⟩)
          (PathNode.mk ⟨0.4, 0, 0⟩
            ((PathNode.mk ⟨3, 0, 0⟩ 0 0 none).g +
              distance (PathNode.mk ⟨3, 0, 0⟩ 0 0 none).position ⟨0.4, 0, 0⟩)
            (distance ⟨0.4, 0, 0⟩ ⟨0.4, 0, 0⟩)
            (some (PathNode.mk ⟨3, 0, 0⟩ 0 0 none))) } := by
  have hkey : getNodeKey ⟨0.4, 0, 0⟩ = (0, 0, 0) := by
    have h4 : round ((0.4 : ℝ) / 1) = 0 := by norm_num [round_eq]
    have h0 : round ((0 : ℝ) / 1) = 0 := by norm_num [round_eq]
    simp [getNodeKey, h4, h0]
    norm_num
  have hg : (PathNode.mk ⟨3, 0, 0⟩ 0 0 none).g +
      distance (PathNode.mk ⟨3, 0, 0⟩ 0 0 none).position ⟨0.4, 0, 0⟩ <
      (PathNode.mk ⟨0.2, 0, 0⟩ 5 0 none).g := by
    have hd : distance ⟨3, 0, 0⟩ ⟨0.4, 0, 0⟩ = 2.6 := by
      rw [distance]
      rw [show ((3 : ℝ) - 0.4) * ((3 : ℝ) - 0.4) + (0 - 0) * (0 - 0) +
        (0 - 0) * (0 - 0) = 2.6 ^ 2 by norm_num]
      exact Real.sqrt_sq (by norm_num)
    simp only [PathNode.g, PathNode.position, hd]
    norm_num
  have hclosed : ∀ n ∈ (AState.mk [] []
      [((0, 0, 0), PathNode.mk ⟨0.2, 0, 0⟩ 5 0 none)]).closedSet,
      getNodeKey n.position ≠ getNodeKey ⟨0.4, 0, 0⟩ := by
    intro n hn
    simp at hn
  have hex : mapGet (AState.mk [] []
      [((0, 0, 0), PathNode.mk ⟨0.2, 0, 0⟩ 5 0 none)]).nodeMap
      (getNodeKey ⟨0.4, 0, 0⟩) = some (PathNode.mk ⟨0.2, 0, 0⟩ 5 0 none) := by
    rw [hkey]
    simp [mapGet]
  refine ⟨hclosed, hex, hg, ?_⟩
  have := (c5_dedup_strictly_lower_g
    { startPos := ⟨0, 0, 0⟩, endPos := ⟨0.4, 0, 0⟩, obstacles := [],
      gridSize := 5, droneRadius := 2, maxIterations := 1 }
    (PathNode.mk ⟨3, 0, 0⟩ 0 0 none)
    (AState.mk [] [] [((0, 0, 0), PathNode.mk ⟨0.2, 0, 0⟩ 5 0 none)])
    ⟨0.4, 0, 0⟩ (PathNode.mk ⟨0.2, 0, 0⟩ 5 0 none) hclosed hex).2 hg
  simpa using this

/-- The Catmull-Rom basis at parameter `0` returns the segment's first
control point `p1` exactly. -/
theorem catmullRom_zero (p0 p1 p2 p3 : Vector3) :
    catmullRom p0 p1 p2 p3 0 = p1 := by
  cases p1
  simp only [catmullRom, Vector3.mk.injEq]
  refine ⟨?_, ?_, ?_⟩ <;> ring

/-- C6 counterexample: with `pointsPerSegment = 1` the smoothed path of a
two-point input has exactly 2 points, so the output is *not* strictly
longer than the input for every `samplesPerSegment`. -/
theorem c6_smooth_not_always_longer :
    ¬ (([(⟨0, 0, 0⟩ : Vector3), ⟨1, 0, 0⟩] : List Vector3).length <
      (smoothPath [⟨0, 0, 0⟩, ⟨1, 0, 0⟩] 1).length) := by
  have h : (smoothPath [(⟨0, 0, 0⟩ : Vector3), ⟨1, 0, 0⟩] 1).length = 2 := by
    rw [smoothPath, if_neg (by norm_num), List.length_append,
      length_flatMap_of_const _ _ 1
        (fun a _ => by rw [List.length_map, List.length_range])]
    norm_num
  rw [h]
  norm_num

/-- C6 (amended): `smoothPath` returns inputs of fewer than 2 points
unchanged; for inputs of length at least 2 and `pointsPerSegment ≥ 1` the
output's first and last points equal the input's first and last points
exactly and the output has `(n - 1) * pointsPerSegment + 1` points — which
is strictly more than `n` when `pointsPerSegment ≥ 2` (with
`pointsPerSegment = 1` the output has exactly `n` points). -/
theorem c6_smooth_endpoints_and_length (path : List Vector3) (s : ℕ) :
    (path.length < 2 → smoothPath path s = path) ∧
    (2 ≤ path.length → 1 ≤ s →
      (smoothPath path s).head? = path.head? ∧
      (smoothPath path s).getLast? = path.getLast? ∧
      (smoothPath path s).length = (path.length - 1) * s + 1 ∧
      (2 ≤ s → path.length < (smoothPath path s).length)) := by
  constructor
  · intro h
    rw [smoothPath, if_pos h]
  · intro hlen hs
    have hif : ¬ path.length < 2 := not_lt.mpr hlen
    have hlength : (smoothPath path s).length = (path.length - 1) * s + 1 := by
      rw [smoothPath, if_neg hif, List.length_append,
        length_flatMap_of_const _ _ s
          (fun a _ => by rw [List.length_map, List.length_range])]
      simp
    refine ⟨?_, ?_, hlength, ?_⟩
    · obtain ⟨p, q, rest, rfl⟩ : ∃ p q rest, path = p :: q :: rest := by
        match path, hlen with
        | p :: q :: rest, _ => exact ⟨p, q, rest, rfl⟩
      obtain ⟨s', rfl⟩ : ∃ s', s = s' + 1 := ⟨s - 1, by omega⟩
      rw [smoothPath, if_neg hif]
      have hr : (p :: q :: rest).length - 1 = rest.length + 1 := by simp
      rw [hr, List.range_succ_eq_map, List.flatMap_cons]
      simp only [List.range_succ_eq_map, List.map_cons]
      rw [List.cons_append, List.cons_append, List.head?_cons, List.head?_cons]
      simp [catmullRom_zero]
    · obtain ⟨last, hlast⟩ : ∃ last, path.getLast? = some last := by
        match path, hlen with
        | p :: rest, _ => exact ⟨(p :: rest).getLast (by simp),
            List.getLast?_eq_getLast _ _⟩
      rw [smoothPath, if_neg hif, List.getLast?_concat, hlast,
        List.getLastD_eq_getLast?, hlast]
      rfl
    · intro hs2
      rw [hlength]
      have h1 : (path.length - 1) * 2 ≤ (path.length - 1) * s :=
        Nat.mul_le_mul_left _ hs2
      omega

/-- Witness for the amended C6 theorem at the two-point path
`[(0,0,0), (2,0,0)]` with `pointsPerSegment = 2`. -/
theorem c6_smooth_endpoints_and_length_witness :
    2 ≤ ([(⟨0, 0, 0⟩ : Vector3), ⟨2, 0, 0⟩] : List Vector3).length ∧
    (1 : ℕ) ≤ 2 ∧
    ((smoothPath [⟨0, 0, 0⟩, ⟨2, 0, 0⟩] 2).head? =
        ([(⟨0, 0, 0⟩ : Vector3), ⟨2, 0, 0⟩] : List Vector3).head? ∧
      (smoothPath [⟨0, 0, 0⟩, ⟨2, 0, 0⟩] 2).getLast? =
        ([(⟨0, 0, 0⟩ : Vector3), ⟨2, 0, 0⟩] : List Vector3).getLast? ∧
      (smoothPath [⟨0, 0, 0⟩, ⟨2, 0, 0⟩] 2).length =
        (([(⟨0, 0, 0⟩ : Vector3), ⟨2, 0, 0⟩] : List Vector3).length - 1) * 2 + 1 ∧
      ((2 : ℕ) ≤ 2 →
        ([(⟨0, 0, 0⟩ : Vector3), ⟨2, 0, 0⟩] : List Vector3).length <
          (smoothPath [⟨0, 0, 0⟩, ⟨2, 0, 0⟩] 2).length)) :=
  ⟨by simp, by norm_num,
    (c6_smooth_endpoints_and_length [⟨0, 0, 0⟩, ⟨2, 0, 0⟩] 2).2
      (by simp) (by norm_num)⟩

/-- The running total of `totalDistance` never decreases below its
accumulator. -/
theorem foldl_dist_le (l : List (Vector3 × Vector3)) (acc : ℝ) :
    acc ≤ l.foldl (fun a p => a + distance p.1 p.2) acc := by
  induction l generalizing acc with
  | nil => simp
  | cons p t ih =>
      refine le_trans ?_ (ih (acc + distance p.1 p.2))
      have := Real.sqrt_nonneg ((p.1.x - p.2.x) * (p.1.x - p.2.x) +
        (p.1.y - p.2.y) * (p.1.y - p.2.y) + (p.1.z - p.2.z) * (p.1.z - p.2.z))
      simp only [distance]
      linarith

/-- The total path length is non-negative. -/
theorem totalDistance_nonneg (path : List Vector3) : 0 ≤ totalDistance path :=
  foldl_dist_le _ 0

/-- The sample count is at least 100. -/
theorem pointsCount_ge (path : List Vector3) (speed : ℝ) :
    100 ≤ pointsCount path speed := by
  rw [pointsCount]
  have h : (100 : ℤ) ≤ max (100 : ℤ) ⌊totalDistance path / speed * 10⌋ :=
    le_max_left _ _
  omega

/-- Sample `0` of the resampler sits at the path's first point: the target
arc length is `0`, so the first segment scan triggers immediately with
interpolation parameter `0` (or the fallback `path[0]` is kept). -/
theorem samplePosition_zero (path : List Vector3) (speed : ℝ) :
    samplePosition path speed 0 = path.headI := by
  rw [samplePosition]
  norm_num
  cases path with
  | nil => rfl
  | cons p rest =>
      cases rest with
      | nil => rfl
      | cons q t =>
          rw [List.headI, List.tail_cons, posScan]
          rw [if_pos (by
            have := Real.sqrt_nonneg ((p.x - q.x) * (p.x - q.x) +
              (p.y - q.y) * (p.y - q.y) + (p.z - q.z) * (p.z - q.z))
            simp only [distance]
            linarith)]
          cases p
          simp

/-- C7 counterexample: on the path `[(0,0,0), (0,0,0), (1,0,0)]` with
speed 1 the first sample's target arc length is `0`, the zero-length first
segment satisfies the break condition, and the source computes
`segmentProgress = (0 - 0) / 0 = NaN`, so the first sample's position is
`(NaN, NaN, NaN)` — not the path's first point.  Under the explicit
division semantics the first sample's position is the `NaN` marker `none`,
which differs from `some path[0]`. -/
theorem c7_first_sample_not_first_point :
    samplePositionChecked [⟨0, 0, 0⟩, ⟨0, 0, 0⟩, ⟨1, 0, 0⟩] 1 0 ≠
      some (([(⟨0, 0, 0⟩ : Vector3), ⟨0, 0, 0⟩, ⟨1, 0, 0⟩] :
        List Vector3).headI) := by
  have h : samplePositionChecked [(⟨0, 0, 0⟩ : Vector3), ⟨0, 0, 0⟩,
      ⟨1, 0, 0⟩] 1 0 = none := by
    rw [samplePositionChecked]
    norm_num
    try simp only [List.headI, List.tail_cons]
    simp only [posScanChecked]
    rw [if_pos (by
      have := distance_nonneg (⟨0, 0, 0⟩ : Vector3) ⟨0, 0, 0⟩
      linarith)]
    rw [if_pos (distance_self _)]
  rw [h]
  simp

/-- C7 (amended): for a non-empty path and positive speeds `v1 < v2`, the
trajectory produced at speed `v1` has exactly
`max(100, floor(totalLength / v1 * 10))` samples, its timestamp sequence
is non-decreasing, and the sample count at the higher speed `v2` is no
larger; the first sample's position equals the path's first point provided
the path's first segment is not zero-length (single-point paths included) —
when the first two points coincide, the source divides `(0 - 0) / 0` and
emits a `NaN` first position instead (see the counterexample).  Under that
proviso the explicit-division scan performs no zero-divisor division and
returns exactly the first point. -/
theorem c7_resample_properties_amended (path : List Vector3) (v1 v2 : ℝ)
    (hpath : path ≠ [])
    (hseg : path.tail = [] ∨ distance path.headI path.tail.headI ≠ 0)
    (hv1 : 0 < v1) (hv12 : v1 < v2) :
    (generateTrajectoryFromPath path v1).length =
      (max (100 : ℤ) ⌊totalDistance path / v1 * 10⌋).toNat ∧
    List.Pairwise (· ≤ ·)
      ((generateTrajectoryFromPath path v1).map TrajectoryPoint.timestamp) ∧
    samplePositionChecked path v1 0 = some path.headI ∧
    (generateTrajectoryFromPath path v1).head?.map TrajectoryPoint.position =
      some path.headI ∧
    pointsCount path v2 ≤ pointsCount path v1 := by
  refine ⟨?_, ?_, ?_, ?_, ?_⟩
  · rw [generateTrajectoryFromPath, List.length_map, List.length_range,
      pointsCount]
  · rw [generateTrajectoryFromPath, List.map_map]
    have hT : 0 ≤ totalDistance path / v1 :=
      div_nonneg (totalDistance_nonneg path) hv1.le
    refine List.Pairwise.map _ ?_ (List.pairwise_lt_range _)
    intro i j hij
    simp only [Function.comp]
    have : (i : ℝ) / (pointsCount path v1 : ℝ) ≤
        (j : ℝ) / (pointsCount path v1 : ℝ) := by
      gcongr
    exact mul_le_mul_of_nonneg_right this hT
  · rw [samplePositionChecked]
    norm_num
    cases path with
    | nil => rfl
    | cons p rest =>
        cases rest with
        | nil => rfl
        | cons q t =>
            simp only [List.headI, List.tail_cons] at hseg ⊢
            have hq : distance p q ≠ 0 := by
              rcases hseg with h | h
              · cases h
              · exact h
            simp only [posScanChecked]
            rw [if_pos (by
              have := distance_nonneg p q
              linarith)]
            rw [if_neg hq]
            cases p
            norm_num
  · have hN : pointsCount path v1 = (pointsCount path v1 - 1) + 1 := by
      have := pointsCount_ge path v1
      omega
    rw [generateTrajectoryFromPath, hN, List.range_succ_eq_map, List.map_cons,
      List.head?_cons]
    simp [samplePosition_zero]
  · rw [pointsCount, pointsCount]
    have hd : totalDistance path / v2 ≤ totalDistance path / v1 := by
      apply div_le_div_of_nonneg_left (totalDistance_nonneg path) hv1 hv12.le
    have hf : ⌊totalDistance path / v2 * 10⌋ ≤ ⌊totalDistance path / v1 * 10⌋ :=
      Int.floor_le_floor (by linarith)
    omega

/-- Witness for the amended C7 theorem at the path `[(0,0,0), (3,0,0)]`
(first segment of length 3) with speeds `1 < 2`. -/
theorem c7_resample_properties_amended_witness :
    ([(⟨0, 0, 0⟩ : Vector3), ⟨3, 0, 0⟩] : List Vector3) ≠ [] ∧
    (([(⟨0, 0, 0⟩ : Vector3), ⟨3, 0, 0⟩] : List Vector3).tail = [] ∨
      distance ([(⟨0, 0, 0⟩ : Vector3), ⟨3, 0, 0⟩] : List Vector3).headI
        ([(⟨0, 0, 0⟩ : Vector3), ⟨3, 0, 0⟩] : List Vector3).tail.headI ≠ 0) ∧
    (0 : ℝ) < 1 ∧ (1 : ℝ) < 2 ∧
    ((generateTrajectoryFromPath [⟨0, 0, 0⟩, ⟨3, 0, 0⟩] 1).length =
      (max (100 : ℤ) ⌊totalDistance [(⟨0, 0, 0⟩ : Vector3), ⟨3, 0, 0⟩] / 1 * 10⌋).toNat ∧
    List.Pairwise (· ≤ ·)
      ((generateTrajectoryFromPath [⟨0, 0, 0⟩, ⟨3, 0, 0⟩] 1).map
        TrajectoryPoint.timestamp) ∧
    samplePositionChecked [(⟨0, 0, 0⟩ : Vector3), ⟨3, 0, 0⟩] 1 0 =
      some ([(⟨0, 0, 0⟩ : Vector3), ⟨3, 0, 0⟩] : List Vector3).headI ∧
    (generateTrajectoryFromPath [⟨0, 0, 0⟩, ⟨3, 0, 0⟩] 1).head?.map
        TrajectoryPoint.position =
      some ([(⟨0, 0, 0⟩ : Vector3), ⟨3, 0, 0⟩] : List Vector3).headI ∧
    pointsCount [(⟨0, 0, 0⟩ : Vector3), ⟨3, 0, 0⟩] 2 ≤
      pointsCount [(⟨0, 0, 0⟩ : Vector3), ⟨3, 0, 0⟩] 1) := by
  have hd3 : distance (⟨0, 0, 0⟩ : Vector3) ⟨3, 0, 0⟩ = 3 := by
    rw [distance, show ((0 : ℝ) - 3) * ((0 : ℝ) - 3) + (0 - 0) * (0 - 0) +
      (0 - 0) * (0 - 0) = 3 ^ 2 by norm_num]
    exact Real.sqrt_sq (by norm_num)
  have hseg : ([(⟨0, 0, 0⟩ : Vector3), ⟨3, 0, 0⟩] : List Vector3).tail = [] ∨
      distance ([(⟨0, 0, 0⟩ : Vector3), ⟨3, 0, 0⟩] : List Vector3).headI
        ([(⟨0, 0, 0⟩ : Vector3), ⟨3, 0, 0⟩] : List Vector3).tail.headI ≠ 0 := by
    right
    simp only [List.headI, List.tail_cons]
    rw [hd3]
    norm_num
  exact ⟨by simp, hseg, by norm_num, by norm_num,
    c7_resample_properties_amended [⟨0, 0, 0⟩, ⟨3, 0, 0⟩] 1 2 (by simp) hseg
      (by norm_num) (by norm_num)⟩

/-- C10: when the total path length is positive and the speed is positive,
every emitted timestamp is `(i / pointsCount) * totalTime` for some
`i < pointsCount`, every timestamp is strictly below
`totalTime = totalLength / speed`, and every sample's target arc length is
strictly below the total path length — no sample is generated at arc-length
fraction 1. -/
theorem c10_samples_stop_short (path : List Vector3) (speed : ℝ)
    (hD : 0 < totalDistance path) (hs : 0 < speed) :
    (generateTrajectoryFromPath path speed).map TrajectoryPoint.timestamp =
      (List.range (pointsCount path speed)).map
        (fun (i : ℕ) => (i : ℝ) / (pointsCount path speed : ℝ) *
          (totalDistance path / speed)) ∧
    (∀ tp ∈ generateTrajectoryFromPath path speed,
      tp.timestamp < totalDistance path / speed) ∧
    (∀ i ∈ List.range (pointsCount path speed),
      targetArcLength path speed i < totalDistance path) := by
  have hN : (0 : ℝ) < (pointsCount path speed : ℝ) := by
    have := pointsCount_ge path speed
    positivity
  have hfrac : ∀ i ∈ List.range (pointsCount path speed),
      (i : ℝ) / (pointsCount path speed : ℝ) < 1 := by
    intro i hi
    rw [List.mem_range] at hi
    rw [div_lt_one hN]
    exact_mod_cast hi
  refine ⟨?_, ?_, ?_⟩
  · rw [generateTrajectoryFromPath, List.map_map]
    rfl
  · intro tp htp
    rw [generateTrajectoryFromPath, List.mem_map] at htp
    obtain ⟨i, hi, rfl⟩ := htp
    have hT : 0 < totalDistance path / speed := div_pos hD hs
    calc (i : ℝ) / (pointsCount path speed : ℝ) * (totalDistance path / speed)
        < 1 * (totalDistance path / speed) :=
          mul_lt_mul_of_pos_right (hfrac i hi) hT
      _ = totalDistance path / speed := one_mul _
  · intro i hi
    rw [targetArcLength]
    calc totalDistance path * ((i : ℝ) / (pointsCount path speed : ℝ))
        < totalDistance path * 1 :=
          mul_lt_mul_of_pos_left (hfrac i hi) hD
      _ = totalDistance path := mul_one _

/-- Witness for C10 at the path `[(0,0,0), (3,0,0)]` with speed `1`. -/
theorem c10_samples_stop_short_witness :
    0 < totalDistance [(⟨0, 0, 0⟩ : Vector3), ⟨3, 0, 0⟩] ∧ (0 : ℝ) < 1 ∧
    (∀ tp ∈ generateTrajectoryFromPath [⟨0, 0, 0⟩, ⟨3, 0, 0⟩] 1,
      tp.timestamp < totalDistance [(⟨0, 0, 0⟩ : Vector3), ⟨3, 0, 0⟩] / 1) := by
  have hD : 0 < totalDistance [(⟨0, 0, 0⟩ : Vector3), ⟨3, 0, 0⟩] := by
    have h9 : distance (⟨0, 0, 0⟩ : Vector3) ⟨3, 0, 0⟩ = 3 := by
      rw [distance]
      rw [show ((0 : ℝ) - 3) * ((0 : ℝ) - 3) + (0 - 0) * (0 - 0) +
        (0 - 0) * (0 - 0) = 3 ^ 2 by norm_num]
      exact Real.sqrt_sq (by norm_num)
    rw [totalDistance]
    simp [h9]
  exact ⟨hD, by norm_num,
    (c10_samples_stop_short [⟨0, 0, 0⟩, ⟨3, 0, 0⟩] 1 hD (by norm_num)).2.1⟩

/-- The two-node ping-pong of `RRTPlanner.reconstructPath` on the node list
`[(0,0,0), (0,0,4)]` of `rrtCfg`: from either node the predecessor scan
picks the other one (both segments are clear and `minDist` never stays
`Infinity`), so the loop never reaches its `break` — the reconstruction
returns nothing for any amount of fuel. -/
theorem reconstructGo_rrtCfg_diverges :
    ∀ fuel, (∀ acc, reconstructGo rrtCfg [⟨0, 0, 0⟩, ⟨0, 0, 4⟩] fuel 0 acc = none) ∧
      (∀ acc, reconstructGo rrtCfg [⟨0, 0, 0⟩, ⟨0, 0, 4⟩] fuel 1 acc = none) := by
  have hpath : ∀ a b, isPathClear rrtCfg a b :=
    isPathClear_of_no_obstacles rfl
  have hfp0 : findPrev rrtCfg [⟨0, 0, 0⟩, ⟨0, 0, 4⟩] 0 =
      some (1, distance ⟨0, 0, 4⟩ ⟨0, 0, 0⟩) := by
    rw [findPrev]
    rw [show List.range ([(⟨0, 0, 0⟩ : Vector3), ⟨0, 0, 4⟩].length) = [0, 1]
      from rfl]
    simp [findPrevAux, hpath]
  have hfp1 : findPrev rrtCfg [⟨0, 0, 0⟩, ⟨0, 0, 4⟩] 1 =
      some (0, distance ⟨0, 0, 0⟩ ⟨0, 0, 4⟩) := by
    rw [findPrev]
    rw [show List.range ([(⟨0, 0, 0⟩ : Vector3), ⟨0, 0, 4⟩].length) = [0, 1]
      from rfl]
    simp [findPrevAux, hpath]
  intro fuel
  induction fuel with
  | zero => exact ⟨fun _ => rfl, fun _ => rfl⟩
  | succ f ih =>
      constructor
      · intro acc
        rw [reconstructGo, hfp0]
        exact ih.2 _
      · intro acc
        rw [reconstructGo, hfp1]
        exact ih.1 _

/-- C1: `RRTPlanner.plan` does *not* always terminate.  On the obstacle-free
scenario `rrtCfg` (maxIterations = 1 > 0) with a random stream whose first
draw `0.05` triggers the goal bias, the first iteration reaches the goal
and calls `reconstructPath`, which then ping-pongs between the two
mutually-nearest visible nodes forever: for every reconstruction fuel the
call has not returned. -/
theorem c1_rrt_plan_never_returns :
    ∀ rfuel, rrtPlan rrtCfg constStream rfuel [] = none := by
  have hclear : ∀ p, isPointClear rrtCfg p := isPointClear_of_no_obstacles rfl
  have hpath : ∀ a b, isPathClear rrtCfg a b := isPathClear_of_no_obstacles rfl
  have hd4 : distance (⟨0, 0, 0⟩ : Vector3) ⟨0, 0, 4⟩ = 4 := by
    rw [distance, show ((0 : ℝ) - 0) * ((0 : ℝ) - 0) + (0 - 0) * (0 - 0) +
      (0 - 4) * (0 - 4) = 4 ^ 2 by norm_num]
    exact Real.sqrt_sq (by norm_num)
  intro rfuel
  have hplan : rrtPlan rrtCfg constStream rfuel [] =
      reconstructGo rrtCfg [⟨0, 0, 0⟩, ⟨0, 0, 4⟩] rfuel 1 [] := by
    rw [rrtPlan, show rrtCfg.maxIterations = 1 from rfl, rrtPlanLoop]
    norm_num [rrtCfg, constStream, nearestNode, stepToward,
      rrtReconstructPath, hclear, hpath, distance_self, hd4]
    rw [if_pos ⟨hclear _, hpath _ _⟩]
    exact if_pos (hpath _ _)
  rw [hplan]
  exact (reconstructGo_rrtCfg_diverges rfuel).2 _

/-- C3: when the start or the goal point is itself not clear (closer to
some obstacle center than `radius + droneRadius + safety margin`),
`AStarPlanner.plan` returns exactly the two-point path `[start, goal]`
with the `earlyReject` outcome, leaving the planner state untouched — no
search iteration is performed. -/
theorem c3_unclear_endpoints_two_point_path (cfg : PathPlanningConfig)
    (st : AState)
    (h : ¬ isPointClear cfg cfg.startPos ∨ ¬ isPointClear cfg cfg.endPos) :
    planA cfg st = ([cfg.startPos, cfg.endPos], st, .earlyReject) := by
  rw [planA, if_pos h]

/-- Witness for C3: in `blockedCfg` the start point coincides with an
obstacle center (distance 0 < 3 + 2 + 2), so the planner returns
`[start, goal]` immediately. -/
theorem c3_unclear_endpoints_two_point_path_witness :
    (¬ isPointClear blockedCfg blockedCfg.startPos ∨
      ¬ isPointClear blockedCfg blockedCfg.endPos) ∧
    planA blockedCfg freshState =
      ([blockedCfg.startPos, blockedCfg.endPos], freshState,
        PlanOutcome.earlyReject) := by
  have hstart : ¬ isPointClear blockedCfg blockedCfg.startPos := by
    intro h
    have hob := h ⟨⟨0, 0, 0⟩, 3⟩ (by simp [blockedCfg])
    apply hob
    show distance ⟨0, 0, 0⟩ ⟨0, 0, 0⟩ < (3 : ℝ) + 2 + 2
    rw [distance_self]
    norm_num
  exact ⟨Or.inl hstart,
    c3_unclear_endpoints_two_point_path blockedCfg freshState (Or.inl hstart)⟩

/-- C2 counterexample: the clearance property fails on fallback paths.  In
`blockedCfg` the start sits exactly at an obstacle center, the planner
returns the fallback `[start, goal]`, and the start's distance to that
obstacle center is `0`, far below `radius + droneRadius - 0.1 = 4.9`. -/
theorem c2_clearance_violated_by_fallback :
    ¬ (∀ p ∈ (planA blockedCfg freshState).1, ∀ ob ∈ blockedCfg.obstacles,
        ob.radius + blockedCfg.droneRadius - 0.1 ≤ distance p ob.position) := by
  intro hall
  have hstart : ¬ isPointClear blockedCfg blockedCfg.startPos := by
    intro h
    have hob := h ⟨⟨0, 0, 0⟩, 3⟩ (by simp [blockedCfg])
    apply hob
    show distance ⟨0, 0, 0⟩ ⟨0, 0, 0⟩ < (3 : ℝ) + 2 + 2
    rw [distance_self]
    norm_num
  have hplan : planA blockedCfg freshState =
      ([blockedCfg.startPos, blockedCfg.endPos], freshState,
        PlanOutcome.earlyReject) := by
    rw [planA, if_pos (Or.inl hstart)]
  have hmem : blockedCfg.startPos ∈ (planA blockedCfg freshState).1 := by
    rw [hplan]
    simp
  have hob : (⟨⟨0, 0, 0⟩, 3⟩ : Obstacle) ∈ blockedCfg.obstacles := by
    simp [blockedCfg]
  have hlt := hall blockedCfg.startPos hmem ⟨⟨0, 0, 0⟩, 3⟩ hob
  have hd0 : distance blockedCfg.startPos
      (⟨⟨0, 0, 0⟩, 3⟩ : Obstacle).position = 0 := distance_self _
  rw [hd0] at hlt
  norm_num [blockedCfg] at hlt

/-- The 26 neighbor offsets in generation order. -/
theorem neighborOffsets_eval :
    neighborOffsets =
      [(-1, -1, -1), (-1, -1, 0), (-1, -1, 1), (-1, 0, -1), (-1, 0, 0),
       (-1, 0, 1), (-1, 1, -1), (-1, 1, 0), (-1, 1, 1), (0, -1, -1),
       (0, -1, 0), (0, -1, 1), (0, 0, -1), (0, 0, 1), (0, 1, -1), (0, 1, 0),
       (0, 1, 1), (1, -1, -1), (1, -1, 0), (1, -1, 1), (1, 0, -1), (1, 0, 0),
       (1, 0, 1), (1, 1, -1), (1, 1, 0), (1, 1, 1)] := by
  decide

/-- The first expansion on `aCfg`: only the nine `dy = +1` neighbors (at
`y = 0`) survive the vertical band filter; with no obstacles all of them
are point- and segment-clear. -/
theorem getNeighbors_aCfg_eval :
    getNeighbors aCfg sNode =
      [⟨-5, 0, -5⟩, ⟨-5, 0, 0⟩, ⟨-5, 0, 5⟩, ⟨0, 0, -5⟩, ⟨0, 0, 0⟩,
       ⟨0, 0, 5⟩, ⟨5, 0, -5⟩, ⟨5, 0, 0⟩, ⟨5, 0, 5⟩] := by
  have hc : ∀ p, isPointClear aCfg p := isPointClear_of_no_obstacles rfl
  have hp : ∀ a b, isPathClear aCfg a b := isPathClear_of_no_obstacles rfl
  rw [getNeighbors, neighborOffsets_eval]
  norm_num [show aCfg.gridSize = (5 : ℝ) from rfl, sNode, PathNode.position,
    List.filter_cons, hc, hp]

/-- Folding the nine neighbors through the expansion body: none of their
keys is closed or already mapped, so all nine are pushed onto the open set
and into the node map. -/
theorem fold_aCfg_eval :
    (getNeighbors aCfg sNode).foldl (processNeighbor aCfg sNode)
      { openSet := [], closedSet := [sNode], nodeMap := [((0, -5, 0), sNode)] } =
      sigma1 := by
  rw [getNeighbors_aCfg_eval]
  norm_num [List.foldl_cons, List.foldl_nil, processNeighbor, getNodeKey,
    round_eq, mapGet, mapSet, sNode, nNode, sigma1, aOpenSet1, PathNode.g,
    PathNode.position, distance, List.any_cons, List.any_nil,
    show aCfg.endPos = ⟨0, 6, 0⟩ from rfl, Prod.ext_iff, Vector3.mk.injEq]

/-- First `plan()` call on a fresh `AStarPlanner` over `aCfg`: the goal is
11 units away (beyond the `2 * gridSize = 10` goal radius), so the single
allowed iteration expands the start node and the budget is exhausted; the
call returns the alternative path and leaves `sigma1` behind in the
instance fields. -/
theorem planA_aCfg_first :
    planA aCfg freshState =
      (getAlternativePath aCfg, sigma1, PlanOutcome.exhausted) := by
  have hc : ∀ p, isPointClear aCfg p := isPointClear_of_no_obstacles rfl
  have hd : distance ⟨0, -5, 0⟩ ⟨0, 6, 0⟩ = Real.sqrt 121 := by
    rw [distance]
    norm_num
  have h121 : Real.sqrt 121 = 11 := sqrt_eq_of_sq (by norm_num) (by norm_num)
  rw [planA, if_neg (by push_neg; exact ⟨hc _, hc _⟩)]
  rw [show aCfg.maxIterations = 1 from rfl]
  have hmk : PathNode.mk aCfg.startPos 0 (distance aCfg.startPos aCfg.endPos)
      none = sNode := by
    rw [sNode, show aCfg.startPos = ⟨0, -5, 0⟩ from rfl,
      show aCfg.endPos = ⟨0, 6, 0⟩ from rfl, hd]
  have hkey : getNodeKey aCfg.startPos = (0, -5, 0) := by
    norm_num [getNodeKey, round_eq, show aCfg.startPos = ⟨0, -5, 0⟩ from rfl]
  simp only [hmk, hkey, freshState, List.nil_append, mapSet]
  simp only [planLoop]
  rw [if_neg (by simp)]
  rw [show findMinF [sNode] = some (0, sNode) by simp [findMinF, minFAux]]
  have hcond : ¬ (distance sNode.position aCfg.endPos < aCfg.gridSize * 2 ∧
      isPathClear aCfg sNode.position aCfg.endPos) := by
    intro hand
    have h1 := hand.1
    rw [show sNode.position = ⟨0, -5, 0⟩ from rfl,
      show aCfg.endPos = ⟨0, 6, 0⟩ from rfl, hd, h121,
      show aCfg.gridSize = (5 : ℝ) from rfl] at h1
    norm_num at h1
  simp only [hcond, if_false, List.eraseIdx, List.nil_append]
  norm_num [fold_aCfg_eval]

/-- First scan step: with `minF = Infinity` the first node is taken. -/
theorem minFAux_none (n : PathNode) (rest : List PathNode) (i : ℕ) :
    minFAux (n :: rest) i none = minFAux rest (i + 1) (some (i, n)) := rfl

/-- Scan step on a strictly smaller `f`: the running minimum is replaced. -/
theorem minFAux_lt {n bn : PathNode} (rest : List PathNode) (i bi : ℕ)
    (h : n.g + n.h < bn.g + bn.h) :
    minFAux (n :: rest) i (some (bi, bn)) =
      minFAux rest (i + 1) (some (i, n)) := by
  simp only [minFAux, if_pos h]

/-- Scan step on an `f` that is not strictly smaller: the running minimum
is kept. -/
theorem minFAux_ge {n bn : PathNode} (rest : List PathNode) (i bi : ℕ)
    (h : ¬ (n.g + n.h < bn.g + bn.h)) :
    minFAux (n :: rest) i (some (bi, bn)) =
      minFAux rest (i + 1) (some (bi, bn)) := by
  simp only [minFAux, if_neg h]

/-- The minimum-`f` scan of the second call's open set: the nine leftover
neighbors precede the re-pushed start node; the node at `(0,0,0)` (index 4,
`f = √25 + √36 = 11`) is the first strict minimum — the start node's
`f = √121 = 11` ties but arrives later and does not replace it. -/
theorem findMinF_round2 :
    findMinF (aOpenSet1 ++ [sNode]) =
      some (4, nNode ⟨0, 0, 0⟩ (Real.sqrt 25) (Real.sqrt 36)) := by
  have s50l : (7 : ℝ) ≤ Real.sqrt 50 := le_sqrt_of_sq (by norm_num) (by norm_num)
  have s50u : Real.sqrt 50 ≤ 7.1 := sqrt_le_of_sq (by norm_num) (by norm_num)
  have s61l : (7 : ℝ) ≤ Real.sqrt 61 := le_sqrt_of_sq (by norm_num) (by norm_num)
  have s61u : Real.sqrt 61 ≤ 7.9 := sqrt_le_of_sq (by norm_num) (by norm_num)
  have s75l : (8.6 : ℝ) ≤ Real.sqrt 75 := le_sqrt_of_sq (by norm_num) (by norm_num)
  have s86l : (9.2 : ℝ) ≤ Real.sqrt 86 := le_sqrt_of_sq (by norm_num) (by norm_num)
  have s25 : Real.sqrt 25 = 5 := sqrt_eq_of_sq (by norm_num) (by norm_num)
  have s36 : Real.sqrt 36 = 6 := sqrt_eq_of_sq (by norm_num) (by norm_num)
  have s121 : Real.sqrt 121 = 11 := sqrt_eq_of_sq (by norm_num) (by norm_num)
  rw [findMinF, aOpenSet1]
  rw [List.cons_append, List.cons_append, List.cons_append, List.cons_append,
    List.cons_append, List.cons_append, List.cons_append, List.cons_append,
    List.cons_append, List.nil_append]
  rw [minFAux_none]
  rw [minFAux_lt _ _ _ (by
    simp only [nNode, PathNode.g, PathNode.h]
    linarith)]
  rw [minFAux_ge _ _ _ (by
    simp only [nNode, PathNode.g, PathNode.h]
    linarith)]
  rw [minFAux_ge _ _ _ (by
    simp only [nNode, PathNode.g, PathNode.h]
    exact lt_irrefl _)]
  rw [minFAux_lt _ _ _ (by
    simp only [nNode, PathNode.g, PathNode.h]
    rw [s25, s36]
    linarith)]
  rw [minFAux_ge _ _ _ (by
    simp only [nNode, PathNode.g, PathNode.h]
    rw [s25, s36]
    linarith)]
  rw [minFAux_ge _ _ _ (by
    simp only [nNode, PathNode.g, PathNode.h]
    rw [s25, s36]
    linarith)]
  rw [minFAux_ge _ _ _ (by
    simp only [nNode, PathNode.g, PathNode.h]
    rw [s25, s36]
    linarith)]
  rw [minFAux_ge _ _ _ (by
    simp only [nNode, PathNode.g, PathNode.h]
    rw [s25, s36]
    linarith)]
  rw [minFAux_ge _ _ _ (by
    simp only [nNode, sNode, PathNode.g, PathNode.h]
    rw [s25, s36, s121]
    norm_num)]
  rfl

/-- Second `plan()` call on the *same* planner instance (state `sigma1`):
the leftover neighbor at `(0,0,0)` wins the minimum-`f` scan against the
re-pushed start node, lies within the goal radius (`√36 = 6 < 10`) with a
clear segment, so this call returns a *successful* three-point path instead
of the alternative path. -/
theorem planA_aCfg_second :
    planA aCfg sigma1 =
      ([⟨0, -5, 0⟩, ⟨0, 0, 0⟩, ⟨0, 6, 0⟩],
        { openSet := aOpenSet1 ++ [sNode], closedSet := [sNode],
          nodeMap := sigma1.nodeMap }, PlanOutcome.success) := by
  have hc : ∀ p, isPointClear aCfg p := isPointClear_of_no_obstacles rfl
  have hp : ∀ a b, isPathClear aCfg a b := isPathClear_of_no_obstacles rfl
  have hd : distance ⟨0, -5, 0⟩ ⟨0, 6, 0⟩ = Real.sqrt 121 := by
    rw [distance]
    norm_num
  have h36 : distance ⟨0, 0, 0⟩ ⟨0, 6, 0⟩ = 6 := by
    rw [distance]
    rw [show ((0 : ℝ) - 0) * ((0 : ℝ) - 0) + (0 - 6) * (0 - 6) +
      (0 - 0) * (0 - 0) = 6 ^ 2 by norm_num]
    exact Real.sqrt_sq (by norm_num)
  rw [planA, if_neg (by push_neg; exact ⟨hc _, hc _⟩)]
  rw [show aCfg.maxIterations = 1 from rfl]
  have hmk : PathNode.mk aCfg.startPos 0 (distance aCfg.startPos aCfg.endPos)
      none = sNode := by
    rw [sNode, show aCfg.startPos = ⟨0, -5, 0⟩ from rfl,
      show aCfg.endPos = ⟨0, 6, 0⟩ from rfl, hd]
  have hkey : getNodeKey aCfg.startPos = (0, -5, 0) := by
    norm_num [getNodeKey, round_eq, show aCfg.startPos = ⟨0, -5, 0⟩ from rfl]
  have hmapset : mapSet sigma1.nodeMap (0, -5, 0) sNode = sigma1.nodeMap := by
    rw [show sigma1.nodeMap = ((0, -5, 0), sNode) ::
      sigma1.nodeMap.tail from rfl, mapSet]
    norm_num
  simp only [hmk, hkey, hmapset, show sigma1.openSet = aOpenSet1 from rfl,
    show sigma1.closedSet = [sNode] from rfl]
  simp only [planLoop]
  rw [if_neg (by simp [aOpenSet1])]
  rw [findMinF_round2]
  have hcond : distance (nNode ⟨0, 0, 0⟩ (Real.sqrt 25)
      (Real.sqrt 36)).position aCfg.endPos < aCfg.gridSize * 2 ∧
      isPathClear aCfg (nNode ⟨0, 0, 0⟩ (Real.sqrt 25)
        (Real.sqrt 36)).position aCfg.endPos := by
    constructor
    · rw [show (nNode ⟨0, 0, 0⟩ (Real.sqrt 25) (Real.sqrt 36)).position =
        ⟨0, 0, 0⟩ from rfl, show aCfg.endPos = ⟨0, 6, 0⟩ from rfl, h36,
        show aCfg.gridSize = (5 : ℝ) from rfl]
      norm_num
    · exact hp _ _
  simp only [if_pos hcond]
  simp [reconstructPath, nNode, sNode,
    show aCfg.endPos = ⟨0, 6, 0⟩ from rfl]

/-- The alternative path of `aCfg`: the raised midpoint
`((0+0)/2, max(-5,6)+20, 0) = (0,26,0)` has a clear segment from the start
(no obstacles), so it is included. -/
theorem getAlternativePath_aCfg_eval :
    getAlternativePath aCfg = [⟨0, -5, 0⟩, ⟨0, 26, 0⟩, ⟨0, 6, 0⟩] := by
  have hp : ∀ a b, isPathClear aCfg a b := isPathClear_of_no_obstacles rfl
  rw [getAlternativePath, if_pos (hp _ _)]
  norm_num [midPoint, show aCfg.startPos = ⟨0, -5, 0⟩ from rfl,
    show aCfg.endPos = ⟨0, 6, 0⟩ from rfl]

/-- C4 counterexample: on `aCfg` the grid planner exhausts `maxIterations`
while the direct segment from start to goal is perfectly clear, yet it does
*not* return `[start, goal]` — it returns the three-point raised detour
without ever attempting the direct segment. -/
theorem c4_exhaustion_skips_direct_attempt :
    (planA aCfg freshState).2.2 = PlanOutcome.exhausted ∧
    isPathClear aCfg aCfg.startPos aCfg.endPos ∧
    (planA aCfg freshState).1 ≠ [aCfg.startPos, aCfg.endPos] := by
  refine ⟨by rw [planA_aCfg_first], isPathClear_of_no_obstacles rfl _ _, ?_⟩
  rw [planA_aCfg_first]
  simp only [getAlternativePath_aCfg_eval]
  intro h
  have := congrArg List.length h
  simp at this

/-- C4 (amended): whenever `AStarPlanner.plan` exhausts its iteration
budget (or its minimum scan breaks), it returns `getAlternativePath`
directly — start, then the raised midpoint exactly when the segment from
the start to it is clear, then the goal — without first attempting the
direct start-goal segment (that attempt only happens in the
empty-open-set branch). -/
theorem c4_exhaustion_returns_alternative (cfg : PathPlanningConfig)
    (st : AState) (h : (planA cfg st).2.2 = PlanOutcome.exhausted) :
    (planA cfg st).1 = cfg.startPos ::
      ((if isPathClear cfg cfg.startPos (midPoint cfg) then [midPoint cfg]
        else []) ++ [cfg.endPos]) := by
  have halt : ∀ (fuel : ℕ) (st' : AState),
      (planLoop cfg fuel st').2.2 = PlanOutcome.exhausted →
      (planLoop cfg fuel st').1 = cfg.startPos ::
        ((if isPathClear cfg cfg.startPos (midPoint cfg) then [midPoint cfg]
          else []) ++ [cfg.endPos]) := by
    intro fuel
    induction fuel with
    | zero =>
        intro st' _
        simp [planLoop, getAlternativePath]
    | succ fuel ih =>
        intro st' hout
        rw [planLoop] at hout ⊢
        by_cases h1 : st'.openSet = []
        · rw [if_pos h1] at hout ⊢
          by_cases h2 : isPathClear cfg cfg.startPos cfg.endPos
          · rw [if_pos h2] at hout
            simp at hout
          · rw [if_neg h2] at hout ⊢
            simp [getAlternativePath]
        · rw [if_neg h1] at hout ⊢
          rcases hm : findMinF st'.openSet with _ | ⟨minIndex, current⟩
          · simp [getAlternativePath]
          · try rw [hm] at hout
            try rw [hm]
            by_cases h3 : distance current.position cfg.endPos <
                cfg.gridSize * 2 ∧ isPathClear cfg current.position cfg.endPos
            · simp only [if_pos h3] at hout
              simp at hout
            · simp only [if_neg h3] at hout ⊢
              exact ih _ hout
  rw [planA] at h ⊢
  by_cases h0 : ¬ isPointClear cfg cfg.startPos ∨ ¬ isPointClear cfg cfg.endPos
  · rw [if_pos h0] at h
    simp at h
  · rw [if_neg h0] at h ⊢
    exact halt _ _ h

/-- Witness for the amended C4 theorem: the first call on `aCfg` exhausts
its budget and indeed returns start, raised midpoint, goal. -/
theorem c4_exhaustion_returns_alternative_witness :
    (planA aCfg freshState).2.2 = PlanOutcome.exhausted ∧
    (planA aCfg freshState).1 = aCfg.startPos ::
      ((if isPathClear aCfg aCfg.startPos (midPoint aCfg) then [midPoint aCfg]
        else []) ++ [aCfg.endPos]) :=
  ⟨by rw [planA_aCfg_first],
    c4_exhaustion_returns_alternative aCfg freshState
      (by rw [planA_aCfg_first])⟩

/-- C9 counterexample: a second `plan()` call on the same `AStarPlanner`
instance does *not* return the same path as a first call on a freshly
constructed planner with the same config.  On `aCfg` the fresh call returns
the raised detour through `(0,26,0)` while the second call, resuming from
the leftover open set, returns a successful path through `(0,0,0)`. -/
theorem c9_second_call_differs :
    (planA aCfg (planA aCfg freshState).2.1).1 ≠ (planA aCfg freshState).1 := by
  rw [planA_aCfg_first]
  simp only [planA_aCfg_second, getAlternativePath_aCfg_eval]
  intro h
  simp [Vector3.mk.injEq] at h

/-- C9 (amended): `RRTPlanner.plan` reinitializes its node sequence at
entry, so its result is independent of the node list left by any previous
call; `AStarPlanner.plan`, by contrast, leaves its open set populated
after a call on `aCfg` (the claimed construct-and-discard property fails
for it, see the counterexample). -/
theorem c9_rrt_resets_astar_retains :
    (∀ (cfg : PathPlanningConfig) (stream : ℕ → ℝ) (rfuel : ℕ)
      (nodes1 nodes2 : List Vector3),
      rrtPlan cfg stream rfuel nodes1 = rrtPlan cfg stream rfuel nodes2) ∧
    (planA aCfg freshState).2.1.openSet ≠ [] := by
  constructor
  · intro cfg stream rfuel nodes1 nodes2
    rfl
  · rw [planA_aCfg_first]
    simp [sigma1, aOpenSet1]

/-- The node returned by a `minFAux` scan comes from the scanned list or
from the running best. -/
theorem minFAux_mem :
    ∀ (l : List PathNode) (i : ℕ) (best : Option (ℕ × PathNode)) (j : ℕ)
      (n : PathNode), minFAux l i best = some (j, n) →
      n ∈ l ∨ ∃ bi, best = some (bi, n) := by
  intro l
  induction l with
  | nil =>
      intro i best j n h
      exact Or.inr ⟨j, h⟩
  | cons m t ih =>
      intro i best j n h
      cases best with
      | none =>
          rw [minFAux_none] at h
          rcases ih _ _ _ _ h with ht | ⟨bi, hb⟩
          · exact Or.inl (List.mem_cons_of_mem _ ht)
          · obtain rfl : m = n := by
              simp at hb
              exact hb.2
            exact Or.inl (List.mem_cons_self _ _)
      | some best' =>
          obtain ⟨bi, bn⟩ := best'
          by_cases hlt : m.g + m.h < bn.g + bn.h
          · rw [minFAux_lt _ _ _ hlt] at h
            rcases ih _ _ _ _ h with ht | ⟨bi', hb⟩
            · exact Or.inl (List.mem_cons_of_mem _ ht)
            · obtain rfl : m = n := by
                simp at hb
                exact hb.2
              exact Or.inl (List.mem_cons_self _ _)
          · rw [minFAux_ge _ _ _ hlt] at h
            rcases ih _ _ _ _ h with ht | ⟨bi', hb⟩
            · exact Or.inl (List.mem_cons_of_mem _ ht)
            · obtain rfl : bn = n := by
                simp at hb
                exact hb.2
              exact Or.inr ⟨bi, rfl⟩

/-- The node chosen by the minimum-`f` scan belongs to the open set. -/
theorem findMinF_mem {l : List PathNode} {j : ℕ} {n : PathNode}
    (h : findMinF l = some (j, n)) : n ∈ l := by
  rcases minFAux_mem l 0 none j n h with hl | ⟨bi, hb⟩
  · exact hl
  · cases hb

/-- Every position that `getNeighbors` returns passed the point-clearance
filter. -/
theorem getNeighbors_clear (cfg : PathPlanningConfig) (node : PathNode) :
    ∀ x ∈ getNeighbors cfg node, isPointClear cfg x := by
  intro x hx
  rw [getNeighbors, List.mem_filter] at hx
  have h := hx.2
  simp only [Bool.and_eq_true, decide_eq_true_eq] at h
  exact h.1.2

/-- The expansion body either leaves the open set unchanged or pushes the
single new candidate node (whose parent is the current node). -/
theorem processNeighbor_openSet (cfg : PathPlanningConfig)
    (cur : PathNode) (st : AState) (nb : Vector3) :
    (processNeighbor cfg cur st nb).openSet = st.openSet ∨
    (processNeighbor cfg cur st nb).openSet = st.openSet ++
      [PathNode.mk nb (cur.g + distance cur.position nb)
        (distance nb cfg.endPos) (some cur)] := by
  rw [processNeighbor]
  by_cases h1 : (st.closedSet.any fun n =>
      decide (getNodeKey n.position = getNodeKey nb)) = true
  · rw [if_pos h1]
    exact Or.inl rfl
  · rw [if_neg h1]
    cases hg : mapGet st.nodeMap (getNodeKey nb) with
    | none =>
        simp only [hg]
        first
          | exact Or.inr rfl
          | exact Or.inr trivial
    | some ex =>
        simp only [hg]
        by_cases h2 : cur.g + distance cur.position nb ≥ ex.g
        · rw [if_pos h2]
          first
            | exact Or.inl rfl
            | exact Or.inl trivial
        · rw [if_neg h2]
          first
            | exact Or.inr rfl
            | exact Or.inr trivial

/-- Folding the expansion body over point-clear neighbors preserves the
invariant that every open-set node has a fully point-clear parent chain. -/
theorem foldl_processNeighbor_clear (cfg : PathPlanningConfig)
    (cur : PathNode) (hcur : chainClear cfg cur) :
    ∀ (nbs : List Vector3) (st : AState), (∀ x ∈ nbs, isPointClear cfg x) →
      (∀ n ∈ st.openSet, chainClear cfg n) →
      ∀ n ∈ (nbs.foldl (processNeighbor cfg cur) st).openSet,
        chainClear cfg n := by
  intro nbs
  induction nbs with
  | nil =>
      intro st _ hst n hn
      exact hst n hn
  | cons x t ih =>
      intro st hnb hst n hn
      rw [List.foldl_cons] at hn
      refine ih _ (fun y hy => hnb y (List.mem_cons_of_mem _ hy)) ?_ n hn
      intro m hm
      rcases processNeighbor_openSet cfg cur st x with ho | ho
      · rw [ho] at hm
        exact hst m hm
      · rw [ho, List.mem_append] at hm
        rcases hm with hm | hm
        · exact hst m hm
        · rw [List.mem_singleton] at hm
          subst hm
          exact ⟨hnb x (List.mem_cons_self _ _), hcur⟩

/-- Along a node whose parent chain is point-clear, every position of the
reconstructed path is point-clear. -/
theorem reconstructPath_clear (cfg : PathPlanningConfig) :
    ∀ (node : PathNode), chainClear cfg node →
      ∀ p ∈ reconstructPath node, isPointClear cfg p
  | .mk q g h none => by
      intro hc p hp
      rw [reconstructPath, List.mem_singleton] at hp
      subst hp
      exact hc
  | .mk q g h (some parent) => by
      intro hc p hp
      rw [reconstructPath, List.mem_append] at hp
      rcases hp with hp | hp
      · exact reconstructPath_clear cfg parent hc.2 p hp
      · rw [List.mem_singleton] at hp
        subst hp
        exact hc.1

/-- Sampling a segment at parameter 1 gives its far endpoint. -/
theorem samplePoint_one (a b : Vector3) : samplePoint a b 1 = b := by
  cases b
  simp only [samplePoint, Vector3.mk.injEq]
  refine ⟨?_, ?_, ?_⟩ <;> ring

/-- A clear segment with at least one sampling step has a clear far
endpoint: the final sample `t = steps / steps = 1` is the endpoint
itself. -/
theorem isPathClear_right_endpoint (cfg : PathPlanningConfig)
    {a b : Vector3} (h0 : pathClearSteps a b ≠ 0)
    (h : isPathClear cfg a b) : isPointClear cfg b := by
  have hmem : pathClearSteps a b ∈ List.range (pathClearSteps a b + 1) := by
    simp
  have hs := h _ hmem
  rw [div_self (by exact_mod_cast h0), samplePoint_one] at hs
  exact hs

/-- The distance between two points dominates their vertical
separation. -/
theorem abs_y_le_distance (a b : Vector3) : |a.y - b.y| ≤ distance a b := by
  rw [distance]
  have h : |a.y - b.y| = Real.sqrt ((a.y - b.y) * (a.y - b.y)) := by
    rw [← Real.sqrt_sq_eq_abs, sq]
  rw [h]
  apply Real.sqrt_le_sqrt
  have h1 := mul_self_nonneg (a.x - b.x)
  have h2 := mul_self_nonneg (a.z - b.z)
  linarith

/-- The raised midpoint sits at least 20 units above the start, so the
segment from the start to it is sampled with at least one step (its
`steps` count is nonzero). -/
theorem midPoint_steps_ne_zero (cfg : PathPlanningConfig) :
    pathClearSteps cfg.startPos (midPoint cfg) ≠ 0 := by
  have habs := abs_y_le_distance cfg.startPos (midPoint cfg)
  have hy : (midPoint cfg).y = max cfg.startPos.y cfg.endPos.y + 20 := rfl
  have hmax := le_max_left cfg.startPos.y cfg.endPos.y
  have habs2 : (20 : ℝ) ≤ |cfg.startPos.y - (midPoint cfg).y| := by
    rw [abs_sub_comm, hy, abs_of_nonneg (by linarith)]
    linarith
  have h20 : (20 : ℝ) ≤ distance cfg.startPos (midPoint cfg) := by linarith
  rw [pathClearSteps]
  have hpos : (0 : ℝ) < distance cfg.startPos (midPoint cfg) / 2 := by
    linarith
  have := Nat.ceil_pos.mpr hpos
  omega

/-- With clear endpoints, every point of the alternative path is clear:
the raised midpoint is included only when the segment from the start to it
is clear, and that segment's final sample is the midpoint itself. -/
theorem getAlternativePath_clear (cfg : PathPlanningConfig)
    (hstart : isPointClear cfg cfg.startPos)
    (hend : isPointClear cfg cfg.endPos) :
    ∀ p ∈ getAlternativePath cfg, isPointClear cfg p := by
  intro p hp
  rw [getAlternativePath] at hp
  by_cases hmid : isPathClear cfg cfg.startPos (midPoint cfg)
  · rw [if_pos hmid] at hp
    simp at hp
    rcases hp with rfl | rfl | rfl
    · exact hstart
    · exact isPathClear_right_endpoint cfg (midPoint_steps_ne_zero cfg) hmid
    · exact hend
  · rw [if_neg hmid] at hp
    simp at hp
    rcases hp with rfl | rfl
    · exact hstart
    · exact hend

/-- Whatever branch the search loop exits through — success, empty open
set (direct or detour), exhaustion, or the scan break — every point of the
returned path is clear, provided the endpoints are clear and every
open-set node has a clear parent chain. -/
theorem planLoop_all_clear (cfg : PathPlanningConfig)
    (hstart : isPointClear cfg cfg.startPos)
    (hend : isPointClear cfg cfg.endPos) :
    ∀ (fuel : ℕ) (st : AState), (∀ n ∈ st.openSet, chainClear cfg n) →
      ∀ p ∈ (planLoop cfg fuel st).1, isPointClear cfg p := by
  intro fuel
  induction fuel with
  | zero =>
      intro st _ p hp
      rw [planLoop] at hp
      exact getAlternativePath_clear cfg hstart hend p hp
  | succ fuel ih =>
      intro st hst p hp
      rw [planLoop] at hp
      by_cases h1 : st.openSet = []
      · rw [if_pos h1] at hp
        by_cases h2 : isPathClear cfg cfg.startPos cfg.endPos
        · rw [if_pos h2] at hp
          simp at hp
          rcases hp with rfl | rfl
          · exact hstart
          · exact hend
        · rw [if_neg h2] at hp
          exact getAlternativePath_clear cfg hstart hend p hp
      · rw [if_neg h1] at hp
        rcases hm : findMinF st.openSet with _ | ⟨minIndex, current⟩
        · try rw [hm] at hp
          exact getAlternativePath_clear cfg hstart hend p hp
        · try rw [hm] at hp
          by_cases h3 : distance current.position cfg.endPos <
              cfg.gridSize * 2 ∧ isPathClear cfg current.position cfg.endPos
          · simp only [if_pos h3] at hp
            rw [List.mem_append] at hp
            rcases hp with hp | hp
            · exact reconstructPath_clear cfg current
                (hst current (findMinF_mem hm)) p hp
            · rw [List.mem_singleton] at hp
              subst hp
              exact hend
          · simp only [if_neg h3] at hp
            refine ih _ ?_ p hp
            refine foldl_processNeighbor_clear cfg current
              (hst current (findMinF_mem hm)) _ _
              (getNeighbors_clear cfg current) ?_
            intro m hm'
            exact hst m (List.mem_of_mem_eraseIdx hm')

/-- C2 (amended): whenever the entry check passes — both the start and the
goal point are clear — every point of the path that `plan()` returns on a
fresh grid planner lies at distance at least `radius + droneRadius - 0.1`
(indeed at least `radius + droneRadius + 2`) from every obstacle center,
through the successful-search branch and every fallback branch alike
(empty-open-set direct path, raised-midpoint detour, exhaustion); only the
unclear-endpoint early-reject branch can return a violating path (see the
counterexample). -/
theorem c2_clearance_with_clear_endpoints (cfg : PathPlanningConfig)
    (hstart : isPointClear cfg cfg.startPos)
    (hend : isPointClear cfg cfg.endPos) :
    ∀ p ∈ (planA cfg freshState).1, ∀ ob ∈ cfg.obstacles,
      ob.radius + cfg.droneRadius - 0.1 ≤ distance p ob.position := by
  intro p hp ob hob
  rw [planA, if_neg (by push_neg; exact ⟨hstart, hend⟩)] at hp
  have hpt := planLoop_all_clear cfg hstart hend cfg.maxIterations _ ?_ p hp
  · have hc := hpt ob hob
    rw [not_lt] at hc
    linarith
  · intro n hn
    simp only [freshState, List.nil_append] at hn
    rw [List.mem_singleton] at hn
    subst hn
    exact hstart

/-- On `clearCfg` every relevant point is clear of the single far obstacle
whenever its distance to `(1000,0,0)` is at least `3 + 2 + 2 = 7`. -/
theorem clearCfg_point_clear (p : Vector3)
    (hd : ¬ (distance p ⟨1000, 0, 0⟩ < 7)) : isPointClear clearCfg p := by
  intro ob hob
  rw [show clearCfg.obstacles = [⟨⟨1000, 0, 0⟩, 3⟩] from rfl,
    List.mem_singleton] at hob
  subst hob
  rw [show clearCfg.droneRadius = (2 : ℝ) from rfl]
  intro hlt
  exact hd (by norm_num at hlt ⊢; linarith)

/-- The endpoints of `clearCfg` are clear of its single far obstacle
(distances 1000 and 992, both far above the required 7). -/
theorem clearCfg_endpoints_clear :
    isPointClear clearCfg clearCfg.startPos ∧
      isPointClear clearCfg clearCfg.endPos := by
  have h0 : distance ⟨0, 0, 0⟩ ⟨1000, 0, 0⟩ = 1000 := by
    rw [distance, show ((0 : ℝ) - 1000) * ((0 : ℝ) - 1000) +
      (0 - 0) * (0 - 0) + (0 - 0) * (0 - 0) = 1000 ^ 2 by norm_num]
    exact Real.sqrt_sq (by norm_num)
  have h8 : distance ⟨8, 0, 0⟩ ⟨1000, 0, 0⟩ = 992 := by
    rw [distance, show ((8 : ℝ) - 1000) * ((8 : ℝ) - 1000) +
      (0 - 0) * (0 - 0) + (0 - 0) * (0 - 0) = 992 ^ 2 by norm_num]
    exact Real.sqrt_sq (by norm_num)
  constructor
  · exact clearCfg_point_clear _ (by
      rw [show clearCfg.startPos = ⟨0, 0, 0⟩ from rfl, h0]
      norm_num)
  · exact clearCfg_point_clear _ (by
      rw [show clearCfg.endPos = ⟨8, 0, 0⟩ from rfl, h8]
      norm_num)

/-- Witness for the amended C2 theorem: both endpoints of `clearCfg` are
clear, so every point of the returned path keeps the required clearance
from the obstacle. -/
theorem c2_clearance_with_clear_endpoints_witness :
    isPointClear clearCfg clearCfg.startPos ∧
    isPointClear clearCfg clearCfg.endPos ∧
    (∀ p ∈ (planA clearCfg freshState).1, ∀ ob ∈ clearCfg.obstacles,
      ob.radius + clearCfg.droneRadius - 0.1 ≤ distance p ob.position) :=
  ⟨clearCfg_endpoints_clear.1, clearCfg_endpoints_clear.2,
    c2_clearance_with_clear_endpoints clearCfg clearCfg_endpoints_clear.1
      clearCfg_endpoints_clear.2⟩

end DroneSim
